import Mathlib

/-!
# Line-segment rasterization (`gfxrasterize.hpp`)

A shallow embedding of `gfx::rasterize_line_segment` and of the part of the
raster buffer it consumes, followed by the properties of the rasterizer that
the specification states.

Machine integers.  The source computes with 32-bit `unsigned` and `int`
values.  They are embedded as `Nat` and `Int`, and every conversion and every
arithmetic result is reduced explicitly: `to_unsigned` is reduction modulo
`2^32`, `to_int` picks the two's-complement representative in
`[-2^31, 2^31)`.
-/

namespace gfx

/-- Value of an integer after conversion to (or arithmetic in) the 32-bit type
`int`: the representative of `z` modulo `2^32` in `[-2^31, 2^31)`. -/
def to_int (z : Int) : Int := (z + 2147483648) % 4294967296 - 2147483648

/-- Value of an integer after conversion to (or arithmetic in) the 32-bit type
`unsigned`: the representative of `z` modulo `2^32` in `[0, 2^32)`. -/
def to_unsigned (z : Int) : Nat := (z % 4294967296).toNat

/-- Modelled from the spec: the raster buffer `hdr_image` of `gfximage.hpp`,
which is not part of the sources at hand.  It is a mutable 2D grid of colour
values indexed by `(x, y)` with `0 ≤ x < width` and `0 ≤ y < height`; the colour
type `C` is opaque. -/
structure hdr_image (C : Type) where
  /-- Number of columns. -/
  width : Nat
  /-- Number of rows. -/
  height : Nat
  /-- Colour stored at column `x`, row `y`. -/
  pixels : Nat → Nat → C

namespace hdr_image

variable {C : Type}

/-- Modelled from the spec: `is_empty()`; a buffer is non-empty when both
dimensions are positive. -/
def is_empty (img : hdr_image C) : Bool := img.width == 0 || img.height == 0

/-- Modelled from the spec: `is_xy(x, y)`, the bounds check
`0 ≤ x < width` and `0 ≤ y < height`. -/
def is_xy (img : hdr_image C) (x y : Nat) : Bool :=
  decide (x < img.width) && decide (y < img.height)

/-- Modelled from the spec: the read accessor `pixel(x, y)`; it is defined on
valid coordinates only. -/
def pixel (img : hdr_image C) (x y : Nat) : Option C :=
  if img.is_xy x y then some (img.pixels x y) else none

/-- Modelled from the spec: the effect of the write accessor
`pixel(x, y, color)` on valid coordinates: the colour is copied into the cell
`(x, y)`, every other cell and both dimensions stay as they are. -/
def pixel_set (img : hdr_image C) (x y : Nat) (color : C) : hdr_image C :=
  { img with pixels := fun a b => if a = x ∧ b = y then color else img.pixels a b }

end hdr_image

/-- How an execution of the rasterizer ended. -/
inductive Status where
  /-- The call returned. -/
  | returned
  /-- An assertion failed: one of the three leading assertions of the
  rasterizer, or the bounds assertion of the buffer's write accessor. -/
  | violation
  /-- The loop was still running when the fuel of the model ran out. -/
  | out_of_fuel
  deriving DecidableEq, Repr

/-- Outcome of an execution: the buffer as the execution left it, how it
ended, and two ghost records: the coordinates passed to the successful writes
`target.pixel(x, y, color)`, in order, and the value of the accumulator `d` at
the start of each iteration of the general loop, in order. -/
structure Run (C : Type) where
  /-- The buffer when the execution ended. -/
  target : hdr_image C
  /-- How the execution ended. -/
  status : Status
  /-- Coordinates written, in the order of the writes. -/
  plotted : List (Nat × Nat)
  /-- Accumulator values tested by `d < 0`, in the order of the tests. -/
  decisions : List Int

variable {C : Type}

/-- The loop of the vertical case,
`for (int y = y0; y <= y1; y++) target.pixel(x0, y, color);`
started with the counter at `y`.  The comparison `y <= y1` and the call convert
the `int` counter to `unsigned`. -/
def vertical_loop (x0 y1 : Nat) (color : C) :
    Nat → Int → hdr_image C → Run C
  | 0, _, target => ⟨target, Status.out_of_fuel, [], []⟩
  | fuel + 1, y, target =>
    if to_unsigned y ≤ y1 then
      if target.is_xy x0 (to_unsigned y) then
        let r := vertical_loop x0 y1 color fuel (to_int (y + 1))
          (target.pixel_set x0 (to_unsigned y) color)
        { r with plotted := (x0, to_unsigned y) :: r.plotted }
      else ⟨target, Status.violation, [], []⟩
    else ⟨target, Status.returned, [], []⟩

/-- The general loop,
`for (int x = x0; x <= x1; x++) { target.pixel(x, y, color);
   if (d < 0) { y++; d += dx + dy; } else { d += dy; } }`
started with the counter at `x`, the minor coordinate at `y` and the
accumulator at `d`. -/
def general_loop (x1 : Nat) (dx dy : Int) (color : C) :
    Nat → Int → Int → Int → hdr_image C → Run C
  | 0, _, _, _, target => ⟨target, Status.out_of_fuel, [], []⟩
  | fuel + 1, x, y, d, target =>
    if to_unsigned x ≤ x1 then
      if target.is_xy (to_unsigned x) (to_unsigned y) then
        let target1 := target.pixel_set (to_unsigned x) (to_unsigned y) color
        let r :=
          if d < 0 then
            general_loop x1 dx dy color fuel (to_int (x + 1)) (to_int (y + 1))
              (to_int (d + to_int (dx + dy))) target1
          else
            general_loop x1 dx dy color fuel (to_int (x + 1)) y
              (to_int (d + dy)) target1
        { r with plotted := (to_unsigned x, to_unsigned y) :: r.plotted,
                 decisions := d :: r.decisions }
      else ⟨target, Status.violation, [], []⟩
    else ⟨target, Status.returned, [], []⟩

/-- Bound on the number of loop-condition tests of one loop: a 32-bit counter
that is incremented by one has taken every value after `2^32` steps. -/
def loop_fuel : Nat := 4294967297

/-- The conversion `(int)(y0 + 0.5)`.  `y0 + 0.5` is computed in `double`, where
it is exact, and the conversion to `int` truncates it: the integer part of
`(2 * y0 + 1) / 2`.  When that integer is not a value of `int` (`y0 ≥ 2^31`) the
conversion is undefined in C++; the model then takes `INT_MIN`, the value the
x86 conversion instruction gives. -/
def half_pixel_cast (y0 : Nat) : Int :=
  if (2 * (y0 : Int) + 1) / 2 < 2147483648 then (2 * (y0 : Int) + 1) / 2 else -2147483648

/-- The initial value of the accumulator,
`(int)(dy * (int)(x0 + 1)) + (dx * (int)(y0 + 0.5)) + (int)(x0 * y1) - (int)(x1 * y0)`,
for the normalised coordinates. -/
def initial_d (x0 y0 x1 y1 : Nat) (dx dy : Int) : Int :=
  to_int (to_int (to_int (to_int (dy * to_int (to_unsigned ((x0 : Int) + 1)))
      + to_int (dx * half_pixel_cast y0))
    + to_int (to_unsigned ((x0 : Int) * (y1 : Int))))
    - to_int (to_unsigned ((x1 : Int) * (y0 : Int))))

/-- The body of `rasterize_line_segment` after the three assertions. -/
def rasterize_body (target : hdr_image C) (x0 y0 x1 y1 : Nat) (color : C) : Run C :=
  -- if (y0 > y1) { temp = y0; y0 = y1; y1 = temp; }
  let ya := if y0 > y1 then y1 else y0
  let yb := if y0 > y1 then y0 else y1
  -- vertical case
  if x0 = x1 then
    vertical_loop x0 yb color loop_fuel (to_int ya) target
  else
    -- if (x0 > x1) { temp = x0; x0 = x1; x1 = temp; }
    let xa := if x0 > x1 then x1 else x0
    let xb := if x0 > x1 then x0 else x1
    let y := to_int ya
    let dx := to_int (to_unsigned ((xb : Int) - (xa : Int)))
    let dy := to_int (to_unsigned ((ya : Int) - (yb : Int)))
    let d := initial_d xa ya xb yb dx dy
    general_loop xb dx dy color loop_fuel (to_int xa) y d target

/-- The function `rasterize_line_segment(target, x0, y0, x1, y1, color)`. -/
def rasterize_line_segment (target : hdr_image C) (x0 y0 x1 y1 : Nat) (color : C) :
    Run C :=
  if target.is_empty then ⟨target, Status.violation, [], []⟩          -- assert(!target.is_empty())
  else if !target.is_xy x0 y0 then ⟨target, Status.violation, [], []⟩ -- assert(target.is_xy(x0, y0))
  else if !target.is_xy x1 y1 then ⟨target, Status.violation, [], []⟩ -- assert(target.is_xy(x1, y1))
  else rasterize_body target x0 y0 x1 y1 color

/-- Modelled from the spec: the constructor `hdr_image(width, height, fill)` of
`gfximage.hpp`, a buffer of the given size filled with one colour. -/
def filled (w h : Nat) (c : C) : hdr_image C := ⟨w, h, fun _ _ => c⟩

/-- The buffer after the writes `pixel(x, y, color)` at the given coordinates,
in order. -/
def draw (color : C) (target : hdr_image C) (pts : List (Nat × Nat)) : hdr_image C :=
  pts.foldl (fun t p => t.pixel_set p.1 p.2 color) target

/-- The coordinates `(x0, y), (x0, y + 1), ...` of `n` consecutive rows. -/
def column (x0 y n : Nat) : List (Nat × Nat) :=
  (List.range' y n).map (fun b => (x0, b))

/-- The states `(x, y, d)` at the start of `n` consecutive iterations of the
general loop, computed in unbounded integers. -/
def walk (dx dy : Int) : Nat → Nat → Nat → Int → List (Nat × Nat × Int)
  | 0, _, _, _ => []
  | n + 1, x, y, d =>
    (x, y, d) ::
      (if d < 0 then walk dx dy n (x + 1) (y + 1) (d + (dx + dy))
       else walk dx dy n (x + 1) y (d + dy))

/-- The pixel of a loop state. -/
def state_pixel (s : Nat × Nat × Int) : Nat × Nat := (s.1, s.2.1)

/-- The accumulator of a loop state. -/
def state_d (s : Nat × Nat × Int) : Int := s.2.2

/-- The range of buffer sizes in which every 32-bit operation of the rasterizer
is exact (no conversion changes a value, no signed operation overflows): the
buffer has at most `2^30` pixels. -/
def exact_range (target : hdr_image C) : Prop :=
  target.width * target.height ≤ 1073741824

/-- The preconditions of the rasterizer: the buffer is non-empty and both
endpoints are valid coordinates of it. -/
def valid_call (target : hdr_image C) (x0 y0 x1 y1 : Nat) : Prop :=
  target.is_empty = false ∧ target.is_xy x0 y0 = true ∧ target.is_xy x1 y1 = true

instance (target : hdr_image C) : Decidable (exact_range target) := by
  unfold exact_range; infer_instance

instance (target : hdr_image C) (x0 y0 x1 y1 : Nat) :
    Decidable (valid_call target x0 y0 x1 y1) := by
  unfold valid_call; infer_instance

/-- The loop states of the general case for the given endpoints, in unbounded
integers: the walk starts at `(min x0 x1, min y0 y1)` with the accumulator at
`min y0 y1 - max y0 y1` and has one state per column up to `max x0 x1`. -/
def segment_states (x0 y0 x1 y1 : Nat) : List (Nat × Nat × Int) :=
  walk ((max x0 x1 - min x0 x1 : Nat) : Int) (-((max y0 y1 - min y0 y1 : Nat) : Int))
    (max x0 x1 - min x0 x1 + 1) (min x0 x1) (min y0 y1)
    (-((max y0 y1 - min y0 y1 : Nat) : Int))

/-- The coordinates the rasterizer writes for the given endpoints, in order. -/
def segment_path (x0 y0 x1 y1 : Nat) : List (Nat × Nat) :=
  if x0 = x1 then column x0 (min y0 y1) (max y0 y1 - min y0 y1 + 1)
  else (segment_states x0 y0 x1 y1).map state_pixel

/-- The accumulator values the rasterizer tests for the given endpoints, in
order; the vertical case has no accumulator. -/
def segment_decisions (x0 y0 x1 y1 : Nat) : List Int :=
  if x0 = x1 then [] else (segment_states x0 y0 x1 y1).map state_d

/-- Two distinct pixels that differ by at most one in each coordinate. -/
def adjacent8 (p q : Nat × Nat) : Prop :=
  p ≠ q ∧ p.1 ≤ q.1 + 1 ∧ q.1 ≤ p.1 + 1 ∧ p.2 ≤ q.2 + 1 ∧ q.2 ≤ p.2 + 1

/-- An ordering of pixels that is an 8-connected path from `A` to `B`: it
starts at `A`, ends at `B`, and consecutive pixels are adjacent. -/
def connects (A B : Nat × Nat) (path : List (Nat × Nat)) : Prop :=
  path.head? = some A ∧ path.getLast? = some B ∧ path.Chain' adjacent8

/-- The implicit function of the line through `(x0,y0)` and `(x1,y1)`,
`F(X,Y) = (y0 - y1) * X + (x1 - x0) * Y + x0 * y1 - x1 * y0`. -/
def implicit_line (x0 y0 x1 y1 : Int) (X Y : Int) : Int :=
  (y0 - y1) * X + (x1 - x0) * Y + x0 * y1 - x1 * y0

/-- One iteration of the general loop, seen from outside: from the pixel and
accumulator `s` at the start of an iteration to those at the start of the
next one.  The column advances by one; if the accumulator is negative the row
advances by one and the accumulator grows by `dx + dy`, otherwise the row stays
and the accumulator grows by `dy`. -/
def loop_step (dx dy : Int) (s t : (Nat × Nat) × Int) : Prop :=
  t.1.1 = s.1.1 + 1 ∧
  ((s.2 < 0 ∧ t.1.2 = s.1.2 + 1 ∧ t.2 = s.2 + (dx + dy)) ∨
   (¬ s.2 < 0 ∧ t.1.2 = s.1.2 ∧ t.2 = s.2 + dy))

instance (dx dy : Int) (s t : (Nat × Nat) × Int) : Decidable (loop_step dx dy s t) :=
  inferInstanceAs (Decidable
    (t.1.1 = s.1.1 + 1 ∧
      ((s.2 < 0 ∧ t.1.2 = s.1.2 + 1 ∧ t.2 = s.2 + (dx + dy)) ∨
       (¬ s.2 < 0 ∧ t.1.2 = s.1.2 ∧ t.2 = s.2 + dy))))

/-- The pixel and the accumulator of a loop state, as a pair. -/
def state_pair (s : Nat × Nat × Int) : (Nat × Nat) × Int := (state_pixel s, state_d s)

/-- The file name `filename_prefix + "-" + std::to_string(end_x) + "-" +
std::to_string(end_y) + ".png"` of one case; `stem` is the given prefix. -/
def case_filename (stem : String) (end_x end_y : Nat) : String :=
  stem ++ "-" ++ toString end_x ++ "-" ++ toString end_y ++ ".png"

/-- Outcome of an execution of `write_line_segment_cases`. -/
structure Batch (C : Type) (F : Type) where
  /-- The value returned: `some b` when the helper returned `b` (for a loop on
  its own, `some true` when it ran to its end); `none` when a call of the
  rasterizer did not return, which ends the run. -/
  result : Option Bool
  /-- The calls `write_png(img, filename)` made, in order, each with the value
  it returned. -/
  requests : List (hdr_image C × String × Bool)
  /-- The state of the files when the execution ended. -/
  files : F

/-- The inner loop of `write_line_segment_cases`,
`for (unsigned end_y = 0; end_y <= 10; ++end_y) { ... }`, over the values of
`end_y` still to come.  `write_png` of `gfxpng.hpp` is not part of the sources
at hand and is a parameter: from the state of the files, an image and a file
name it gives its return value and the new state of the files.  The colours
`silver` and `red` stand for `gfx::SILVER` and `gfx::RED`. -/
def cases_rows {F : Type} (write_png : F → hdr_image C → String → Bool × F)
    (silver red : C) (stem : String) (end_x : Nat) : List Nat → F → Batch C F
  | [], files => ⟨some true, [], files⟩
  | end_y :: rest, files =>
    -- hdr_image img(11, 11, gfx::SILVER); rasterize_line_segment(img, 5, 5, end_x, end_y, gfx::RED);
    let r := rasterize_line_segment (filled 11 11 silver) 5 5 end_x end_y red
    if r.status = Status.returned then
      let w := write_png files r.target (case_filename stem end_x end_y)
      if w.1 then
        let b := cases_rows write_png silver red stem end_x rest w.2
        { b with requests := (r.target, case_filename stem end_x end_y, true) :: b.requests }
      else
        -- if (!write_png(img, filename)) return false;
        ⟨some false, [(r.target, case_filename stem end_x end_y, false)], w.2⟩
    else ⟨none, [], files⟩

/-- The outer loop of `write_line_segment_cases`,
`for (unsigned end_x = 0; end_x <= 10; ++end_x) { ... }`, over the values of
`end_x` still to come, followed by `return true`. -/
def cases_columns {F : Type} (write_png : F → hdr_image C → String → Bool × F)
    (silver red : C) (stem : String) : List Nat → F → Batch C F
  | [], files => ⟨some true, [], files⟩
  | end_x :: rest, files =>
    let b := cases_rows write_png silver red stem end_x (List.range 11) files
    if b.result = some true then
      let b2 := cases_columns write_png silver red stem rest b.files
      { b2 with requests := b.requests ++ b2.requests }
    else b

/-- The function `write_line_segment_cases(filename_prefix)`. -/
def write_line_segment_cases {F : Type} (write_png : F → hdr_image C → String → Bool × F)
    (silver red : C) (stem : String) (files : F) : Batch C F :=
  cases_columns write_png silver red stem (List.range 11) files

/-- The image of the case `(end_x, end_y)`: a fresh 11x11 image filled with
`silver` after one call of the rasterizer from `(5,5)` to `(end_x, end_y)` with
`red`. -/
def case_image (silver red : C) (end_x end_y : Nat) : hdr_image C :=
  (rasterize_line_segment (filled 11 11 silver) 5 5 end_x end_y red).target

/-- The image and file name of the cases of one `end_x`, for the given values
of `end_y`, in order. -/
def rows_expected (silver red : C) (stem : String) (end_x : Nat) (ys : List Nat) :
    List (hdr_image C × String) :=
  ys.map (fun end_y => (case_image silver red end_x end_y, case_filename stem end_x end_y))

/-- The image and file name of the cases for the given values of `end_x`,
each with `end_y` from 0 to 10, in `end_x`-major order. -/
def columns_expected (silver red : C) (stem : String) (xs : List Nat) :
    List (hdr_image C × String) :=
  xs.flatMap (fun end_x => rows_expected silver red stem end_x (List.range 11))

/-- The image and the file name of a recorded request. -/
def request_key (q : hdr_image C × String × Bool) : hdr_image C × String := (q.1, q.2.1)

/-- The value `write_png` returned for a recorded request. -/
def request_ok (q : hdr_image C × String × Bool) : Bool := q.2.2

/-- A sequence of return values in which a `false` can only be the last one. -/
def stops_at_failure (outcomes : List Bool) : Prop :=
  ∀ (init : List Bool) (o : Bool) (rest : List Bool),
    outcomes = init ++ o :: rest → o = false → rest = []

/-- The initial value of the accumulator with offset `0` in place of the
half-pixel offset,
`(int)(dy * (int)(x0 + 1)) + (dx * (int)(y0)) + (int)(x0 * y1) - (int)(x1 * y0)`. -/
def initial_d_offset_zero (x0 y0 x1 y1 : Nat) (dx dy : Int) : Int :=
  to_int (to_int (to_int (to_int (dy * to_int (to_unsigned ((x0 : Int) + 1)))
      + to_int (dx * to_int (y0 : Int)))
    + to_int (to_unsigned ((x0 : Int) * (y1 : Int))))
    - to_int (to_unsigned ((x1 : Int) * (y0 : Int))))

/-- An integer that is a value of the 32-bit type `int`. -/
def fits_int (z : Int) : Prop := -2147483648 ≤ z ∧ z < 2147483648

instance (z : Int) : Decidable (fits_int z) :=
  inferInstanceAs (Decidable (-2147483648 ≤ z ∧ z < 2147483648))

/-- Modelled from the spec: the dimensions of a buffer are values of the 32-bit
type `unsigned`, the type of the coordinates `x0`, `y0`, `x1`, `y1` that index
it (`gfximage.hpp` is not part of the sources at hand).  Every coordinate of
such a buffer is below the largest value of `unsigned`. -/
def unsigned_dimensions (target : hdr_image C) : Prop :=
  target.width ≤ 4294967295 ∧ target.height ≤ 4294967295

instance (target : hdr_image C) : Decidable (unsigned_dimensions target) :=
  inferInstanceAs (Decidable (target.width ≤ 4294967295 ∧ target.height ≤ 4294967295))

/-- The coordinates `(x, y), (x + 1, y), ...` of `n` consecutive columns. -/
def row (x y n : Nat) : List (Nat × Nat) :=
  (List.range' x n).map (fun a => (a, y))

/-- The behaviour the specification states for the batch helper, written from
the specification's words and not from the source, for a list of cases (image
and file name): the images are written in order, each to its file, `write_png`
acting on the state of the files; the first write for which `write_png` returns
`false` ends the run with the value `false` and no further request; when no
write fails the value is `true`.  Every request is recorded with the value
`write_png` returned for it. -/
def write_cases_spec {F : Type} (write_png : F → hdr_image C → String → Bool × F) :
    List (hdr_image C × String) → F → Batch C F
  | [], files => ⟨some true, [], files⟩
  | e :: rest, files =>
    if (write_png files e.1 e.2).1 = true then
      ⟨(write_cases_spec write_png rest (write_png files e.1 e.2).2).result,
       (e.1, e.2, true) :: (write_cases_spec write_png rest (write_png files e.1 e.2).2).requests,
       (write_cases_spec write_png rest (write_png files e.1 e.2).2).files⟩
    else ⟨some false, [(e.1, e.2, false)], (write_png files e.1 e.2).2⟩

/-! ## Machine arithmetic -/

theorem to_int_of_range {z : Int} (h1 : -2147483648 ≤ z) (h2 : z < 2147483648) :
    to_int z = z := by
  unfold to_int; omega

theorem to_unsigned_of_range {z : Int} (h1 : 0 ≤ z) (h2 : z < 4294967296) :
    to_unsigned z = z.toNat := by
  unfold to_unsigned; omega

theorem to_unsigned_natCast {n : Nat} (h : n < 4294967296) :
    to_unsigned (n : Int) = n := by
  unfold to_unsigned; omega

theorem to_int_natCast {n : Nat} (h : n < 2147483648) : to_int (n : Int) = n := by
  unfold to_int; omega

theorem to_int_zero : to_int 0 = 0 := rfl

theorem to_unsigned_to_int (z : Int) : to_unsigned (to_int z) = to_unsigned z := by
  unfold to_int to_unsigned; omega

theorem to_int_add_one (z : Int) : to_int (to_int z + 1) = to_int (z + 1) := by
  unfold to_int; omega

theorem to_int_modEq (z : Int) : to_int z ≡ z [ZMOD 4294967296] := by
  unfold to_int Int.ModEq
  omega

theorem to_int_congr {a b : Int} (h : a ≡ b [ZMOD 4294967296]) : to_int a = to_int b := by
  unfold Int.ModEq at h
  unfold to_int
  omega

/-- The cast `(int)(y0 + 0.5)` gives `y0` when `y0` is a value of `int`. -/
theorem half_pixel_cast_eq {y0 : Nat} (h : y0 < 2147483648) : half_pixel_cast y0 = (y0 : Int) := by
  have hhalf : (2 * (y0 : Int) + 1) / 2 = y0 := by omega
  unfold half_pixel_cast
  rw [hhalf, if_pos (by omega)]

/-! ## The buffer after a sequence of writes -/

theorem draw_nil (color : C) (target : hdr_image C) : draw color target [] = target := rfl

theorem draw_cons (color : C) (target : hdr_image C) (p : Nat × Nat)
    (pts : List (Nat × Nat)) :
    draw color target (p :: pts) = draw color (target.pixel_set p.1 p.2 color) pts := rfl

theorem draw_width (color : C) (pts : List (Nat × Nat)) :
    ∀ target : hdr_image C, (draw color target pts).width = target.width := by
  induction pts with
  | nil => intro target; rfl
  | cons p pts ih => intro target; rw [draw_cons, ih]; rfl

theorem draw_height (color : C) (pts : List (Nat × Nat)) :
    ∀ target : hdr_image C, (draw color target pts).height = target.height := by
  induction pts with
  | nil => intro target; rfl
  | cons p pts ih => intro target; rw [draw_cons, ih]; rfl

theorem draw_pixels_of_mem (color : C) (pts : List (Nat × Nat)) :
    ∀ (target : hdr_image C) (a b : Nat), (a, b) ∈ pts →
      (draw color target pts).pixels a b = color := by
  induction pts using List.reverseRecOn with
  | nil => intro target a b h; simp at h
  | append_singleton pts p ih =>
    intro target a b h
    unfold draw at ih ⊢
    rw [List.foldl_append]
    simp only [List.foldl_cons, List.foldl_nil, hdr_image.pixel_set]
    by_cases hp : a = p.1 ∧ b = p.2
    · simp [hp]
    · rw [if_neg hp]
      apply ih
      rcases List.mem_append.mp h with h | h
      · exact h
      · exfalso; apply hp
        simp at h
        rw [← h]; exact ⟨rfl, rfl⟩

theorem draw_pixels_of_not_mem (color : C) (pts : List (Nat × Nat)) :
    ∀ (target : hdr_image C) (a b : Nat), (a, b) ∉ pts →
      (draw color target pts).pixels a b = target.pixels a b := by
  induction pts with
  | nil => intro target a b _; rfl
  | cons p pts ih =>
    intro target a b h
    rw [draw_cons, ih _ a b (fun hm => h (List.mem_cons_of_mem _ hm))]
    simp only [hdr_image.pixel_set]
    rw [if_neg]
    rintro ⟨h1, h2⟩
    apply h
    rw [h1, h2]
    exact List.mem_cons_self _ _

/-! ## The loops in the exact range -/

theorem pixel_set_width (target : hdr_image C) (x y : Nat) (color : C) :
    (target.pixel_set x y color).width = target.width := rfl

theorem pixel_set_height (target : hdr_image C) (x y : Nat) (color : C) :
    (target.pixel_set x y color).height = target.height := rfl

theorem is_xy_iff (target : hdr_image C) (x y : Nat) :
    target.is_xy x y = true ↔ x < target.width ∧ y < target.height := by
  simp [hdr_image.is_xy]

theorem column_succ (x0 y n : Nat) :
    column x0 y (n + 1) = (x0, y) :: column x0 (y + 1) n := rfl

/-- The vertical loop, started at row `y` with `n` rows to go, writes the
column `y, ..., y1` of `x0` and returns. -/
theorem vertical_loop_exact (x0 y1 : Nat) (color : C) (hy1 : y1 < 1073741824) :
    ∀ (n fuel y : Nat) (target : hdr_image C), n < fuel → y + n = y1 + 1 →
      x0 < target.width → y1 < target.height →
      vertical_loop x0 y1 color fuel (y : Int) target
        = ⟨draw color target (column x0 y n), Status.returned, column x0 y n, []⟩ := by
  intro n
  induction n with
  | zero =>
    intro fuel y target hf hy _ _
    obtain ⟨f, rfl⟩ := Nat.exists_eq_succ_of_ne_zero (by omega : fuel ≠ 0)
    have hu : to_unsigned (y : Int) = y := to_unsigned_natCast (by omega)
    simp only [vertical_loop, hu]
    rw [if_neg (by omega)]
    rfl
  | succ n ih =>
    intro fuel y target hf hy hx hh
    obtain ⟨f, rfl⟩ := Nat.exists_eq_succ_of_ne_zero (by omega : fuel ≠ 0)
    have hu : to_unsigned (y : Int) = y := to_unsigned_natCast (by omega)
    have hi : to_int ((y : Int) + 1) = ((y + 1 : Nat) : Int) := by
      rw [to_int_of_range (by omega) (by omega)]; rfl
    have hxy : target.is_xy x0 y = true := (is_xy_iff _ _ _).2 ⟨hx, by omega⟩
    simp only [vertical_loop, hu, hi]
    rw [if_pos (by omega), if_pos hxy]
    rw [ih f (y + 1) (target.pixel_set x0 y color) (by omega) (by omega) hx hh, column_succ]
    rfl

theorem walk_succ (dx dy : Int) (n x y : Nat) (d : Int) :
    walk dx dy (n + 1) x y d
      = (x, y, d) :: (if d < 0 then walk dx dy n (x + 1) (y + 1) (d + (dx + dy))
                      else walk dx dy n (x + 1) y (d + dy)) := rfl

/-- The relation between consecutive loop states.  A state `i ≤ X` columns and
`j` rows from the start with accumulator `X * j - Y * (i + 1)` and
`X * j < Y * i + X` has `j ≤ Y`, and the relation `X * j < Y * i + X` holds
again for the next state, whichever branch is taken. -/
theorem loop_state_next (X Y i j : Nat) (d : Int) (hiX : i ≤ X)
    (hd : d = (X : Int) * j - (Y : Int) * (i + 1)) (hinv : X * j < Y * i + X) :
    j ≤ Y ∧ (d < 0 → X * (j + 1) < Y * (i + 1) + X) ∧ X * j < Y * (i + 1) + X := by
  have hjY : j ≤ Y := by
    have h1 : Y * i ≤ Y * X := Nat.mul_le_mul_left Y hiX
    have h2 : X * j < X * (Y + 1) := by
      calc X * j < Y * i + X := hinv
        _ ≤ Y * X + X := Nat.add_le_add_right h1 X
        _ = X * (Y + 1) := by ring
    exact Nat.lt_succ_iff.mp (Nat.lt_of_mul_lt_mul_left h2)
  have hYi2 : Y * i ≤ Y * (i + 1) := Nat.mul_le_mul_left Y (Nat.le_succ i)
  have cXj : ((X * j : Nat) : Int) = (X : Int) * j := by push_cast; ring
  have cYi : ((Y * (i + 1) : Nat) : Int) = (Y : Int) * (i + 1) := by push_cast; ring
  rw [← cXj, ← cYi] at hd
  have hXjs : X * (j + 1) = X * j + X := by ring
  rw [hXjs]
  refine ⟨hjY, ?_⟩
  clear cXj cYi hXjs hjY
  generalize X * j = a at *
  generalize Y * (i + 1) = b at *
  generalize Y * i = c at *
  refine ⟨?_, ?_⟩
  · omega
  · omega

/-- The arithmetic of one loop state.  In a buffer of at most `2^30` pixels, a
state `i ≤ X` columns and `j` rows from the start with accumulator
`X * j - Y * (i + 1)` and `X * j < Y * i + X` has `j ≤ Y`, its accumulator is
at most `2^30` in absolute value, and the relation `X * j < Y * i + X` holds
again for the next state, whichever branch is taken. -/
theorem loop_state_facts (xa ya X Y W H i j : Nat) (d : Int)
    (hW : xa + X < W) (hH : ya + Y < H) (hWH : W * H ≤ 1073741824) (hiX : i ≤ X)
    (hd : d = (X : Int) * j - (Y : Int) * (i + 1)) (hinv : X * j < Y * i + X) :
    j ≤ Y ∧ -1073741824 ≤ d ∧ d ≤ 1073741824 ∧
    (d < 0 → X * (j + 1) < Y * (i + 1) + X) ∧ X * j < Y * (i + 1) + X := by
  obtain ⟨hjY, hs1, hs2⟩ := loop_state_next X Y i j d hiX hd hinv
  refine ⟨hjY, ?_, ?_, hs1, hs2⟩
  all_goals
    have hXW : X ≤ W := Nat.le_of_lt (Nat.lt_of_le_of_lt (Nat.le_add_left X xa) hW)
    have hYH : Y ≤ H := Nat.le_of_lt (Nat.lt_of_le_of_lt (Nat.le_add_left Y ya) hH)
    have hiW : i + 1 ≤ W :=
      Nat.le_trans (Nat.succ_le_succ hiX) (Nat.le_trans (Nat.le_add_left (X + 1) xa) hW)
    have hXj : X * j ≤ 1073741824 :=
      Nat.le_trans (Nat.mul_le_mul hXW (Nat.le_trans hjY hYH)) hWH
    have hYi : Y * (i + 1) ≤ 1073741824 :=
      Nat.le_trans (Nat.mul_le_mul hYH hiW) (Nat.mul_comm W H ▸ hWH)
    have cXj : ((X * j : Nat) : Int) = (X : Int) * j := by push_cast; ring
    have cYi : ((Y * (i + 1) : Nat) : Int) = (Y : Int) * (i + 1) := by push_cast; ring
    rw [← cXj, ← cYi] at hd
    clear cXj cYi hs1 hs2 hinv hWH
    generalize X * j = a at *
    generalize Y * (i + 1) = b at *
    omega

/-- The 32-bit operations of one iteration of the general loop are exact when
the coordinates are inside a buffer of at most `2^30` columns and rows and the
accumulator is at most `2^30` in absolute value. -/
theorem loop_state_machine (xa ya X Y W H i j : Nat) (d : Int)
    (hW : xa + X < W) (hH : ya + Y < H) (hWle : W ≤ 1073741824) (hHle : H ≤ 1073741824)
    (hiX : i ≤ X) (hjY : j ≤ Y) (hd1 : -1073741824 ≤ d) (hd2 : d ≤ 1073741824) :
    to_unsigned ((xa + i : Nat) : Int) = xa + i ∧
    to_unsigned ((ya + j : Nat) : Int) = ya + j ∧
    to_int (((xa + i : Nat) : Int) + 1) = ((xa + (i + 1) : Nat) : Int) ∧
    to_int (((ya + j : Nat) : Int) + 1) = ((ya + (j + 1) : Nat) : Int) ∧
    to_int ((X : Int) + -(Y : Int)) = (X : Int) + -(Y : Int) ∧
    to_int (d + ((X : Int) + -(Y : Int))) = d + ((X : Int) + -(Y : Int)) ∧
    to_int (d + -(Y : Int)) = d + -(Y : Int) := by
  refine ⟨?_, ?_, ?_, ?_, ?_, ?_, ?_⟩
  · exact to_unsigned_natCast (by omega)
  · exact to_unsigned_natCast (by omega)
  · rw [to_int_of_range (by omega) (by omega)]; push_cast; ring
  · rw [to_int_of_range (by omega) (by omega)]; push_cast; ring
  · exact to_int_of_range (by omega) (by omega)
  · exact to_int_of_range (by omega) (by omega)
  · exact to_int_of_range (by omega) (by omega)

/-- The general loop in the exact range.  With `X` and `Y` the extents of the
normalised segment from `(xa, ya)`, a state `i` columns and `j` rows from the
start whose accumulator is `X * j - Y * (i + 1)` and which satisfies
`X * j < Y * i + X` is followed, exactly as in unbounded integers, by the
states of `walk`, every write is inside the buffer, and the loop returns. -/
theorem general_loop_exact (xa ya X Y : Nat) (color : C) (W H : Nat)
    (hW : xa + X < W) (hH : ya + Y < H) (hWH : W * H ≤ 1073741824) :
    ∀ (n fuel i j : Nat) (d : Int) (target : hdr_image C),
      n < fuel → i + n = X + 1 →
      d = (X : Int) * j - (Y : Int) * (i + 1) →
      X * j < Y * i + X →
      target.width = W → target.height = H →
      general_loop (xa + X) (X : Int) (-(Y : Int)) color fuel
          ((xa + i : Nat) : Int) ((ya + j : Nat) : Int) d target
        = ⟨draw color target ((walk X (-Y) n (xa + i) (ya + j) d).map state_pixel),
           Status.returned,
           (walk X (-Y) n (xa + i) (ya + j) d).map state_pixel,
           (walk X (-Y) n (xa + i) (ya + j) d).map state_d⟩ := by
  have hWpos : 0 < W := Nat.lt_of_le_of_lt (Nat.zero_le _) hW
  have hHpos : 0 < H := Nat.lt_of_le_of_lt (Nat.zero_le _) hH
  have hWle : W ≤ 1073741824 := le_trans (Nat.le_mul_of_pos_right W hHpos) hWH
  have hHle : H ≤ 1073741824 := le_trans (Nat.le_mul_of_pos_left H hWpos) hWH
  intro n
  induction n with
  | zero =>
    intro fuel i j d target hf hi _ _ _ _
    obtain ⟨f, rfl⟩ := Nat.exists_eq_succ_of_ne_zero (Nat.pos_iff_ne_zero.mp hf)
    have hu : to_unsigned ((xa + i : Nat) : Int) = xa + i := to_unsigned_natCast (by omega)
    have hgt : ¬ xa + i ≤ xa + X := by omega
    simp only [general_loop, hu]
    rw [if_neg hgt]
    rfl
  | succ n ih =>
    intro fuel i j d target hf hi hd hinv hw hh
    obtain ⟨f, rfl⟩ := Nat.exists_eq_succ_of_ne_zero (Nat.pos_iff_ne_zero.mp (Nat.zero_lt_of_lt hf))
    have hnf : n < f := Nat.lt_of_succ_lt_succ hf
    have hiX : i ≤ X := by omega
    have hin : i + 1 + n = X + 1 := by omega
    obtain ⟨hjY, hd1, hd2, hstep1, hstep2⟩ :=
      loop_state_facts xa ya X Y W H i j d hW hH hWH hiX hd hinv
    obtain ⟨hux, huy, hix, hiy, hdxy, hda, hdb⟩ :=
      loop_state_machine xa ya X Y W H i j d hW hH hWle hHle hiX hjY hd1 hd2
    have hxy : target.is_xy (xa + i) (ya + j) = true :=
      (is_xy_iff _ _ _).2 ⟨hw ▸ Nat.lt_of_le_of_lt (Nat.add_le_add_left hiX xa) hW,
        hh ▸ Nat.lt_of_le_of_lt (Nat.add_le_add_left hjY ya) hH⟩
    simp only [general_loop, hux, huy, hix, hiy, hdxy, hda, hdb]
    rw [if_pos (Nat.add_le_add_left hiX xa), if_pos hxy, walk_succ]
    by_cases hneg : d < 0
    · rw [if_pos hneg, if_pos hneg]
      rw [ih f (i + 1) (j + 1) _ (target.pixel_set (xa + i) (ya + j) color) hnf hin
        (by rw [hd]; push_cast; ring) (hstep1 hneg) hw hh]
      rfl
    · rw [if_neg hneg, if_neg hneg]
      rw [ih f (i + 1) j _ (target.pixel_set (xa + i) (ya + j) color) hnf hin
        (by rw [hd]; push_cast; ring) hstep2 hw hh]
      rfl

/-! ## The rasterizer in the exact range -/

theorem to_int_to_unsigned (z : Int) : to_int (to_unsigned z) = to_int z := by
  unfold to_int to_unsigned; omega

/-- In the exact range the initial accumulator is `y0 - y1`. -/
theorem initial_d_exact (xa ya X Y W H : Nat) (hW : xa + X < W) (hH : ya + Y < H)
    (hWH : W * H ≤ 1073741824) :
    initial_d xa ya (xa + X) (ya + Y) (X : Int) (-(Y : Int)) = -(Y : Int) := by
  have hWpos : 0 < W := by omega
  have hHpos : 0 < H := by omega
  have hWle : W ≤ 1073741824 := le_trans (Nat.le_mul_of_pos_right W hHpos) hWH
  have hHle : H ≤ 1073741824 := le_trans (Nat.le_mul_of_pos_left H hWpos) hWH
  have bound : ∀ a b : Nat, a ≤ W → b < H → ((a * b : Nat) : Int) < 1073741824 := by
    intro a b ha hb
    have h : a * b < W * H :=
      Nat.lt_of_le_of_lt (Nat.mul_le_mul_right b ha) (Nat.mul_lt_mul_of_pos_left hb hWpos)
    exact_mod_cast Nat.lt_of_lt_of_le h hWH
  have h1 := bound (xa + 1) Y (by omega) (by omega)
  have h2 := bound X ya (by omega) (by omega)
  have h3 := bound xa (ya + Y) (by omega) (by omega)
  have h4 := bound (xa + X) ya (by omega) (by omega)
  have n1 : (0 : Int) ≤ ((xa + 1) * Y : Nat) := Int.natCast_nonneg _
  have n2 : (0 : Int) ≤ (X * ya : Nat) := Int.natCast_nonneg _
  have n3 : (0 : Int) ≤ (xa * (ya + Y) : Nat) := Int.natCast_nonneg _
  have n4 : (0 : Int) ≤ ((xa + X) * ya : Nat) := Int.natCast_nonneg _
  have e1 : (-(Y : Int)) * ((xa : Int) + 1) = -(((xa + 1) * Y : Nat) : Int) := by
    push_cast; ring
  have e2 : (X : Int) * (ya : Int) = ((X * ya : Nat) : Int) := by push_cast; ring
  have e3 : (xa : Int) * ((ya + Y : Nat) : Int) = ((xa * (ya + Y) : Nat) : Int) := by
    push_cast; ring
  have e4 : ((xa + X : Nat) : Int) * (ya : Int) = (((xa + X) * ya : Nat) : Int) := by
    push_cast; ring
  have hcast : half_pixel_cast ya = (ya : Int) := half_pixel_cast_eq (by omega)
  unfold initial_d
  rw [to_int_to_unsigned, to_int_to_unsigned, to_int_to_unsigned, hcast,
    to_int_of_range (z := (xa : Int) + 1) (by omega) (by omega), e1, e2, e3, e4,
    to_int_of_range (z := -(((xa + 1) * Y : Nat) : Int)) (by omega) (by omega),
    to_int_of_range (z := ((X * ya : Nat) : Int)) (by omega) (by omega),
    to_int_of_range (z := ((xa * (ya + Y) : Nat) : Int)) (by omega) (by omega),
    to_int_of_range (z := (((xa + X) * ya : Nat) : Int)) (by omega) (by omega),
    to_int_of_range (z := -(((xa + 1) * Y : Nat) : Int) + ((X * ya : Nat) : Int))
      (by omega) (by omega),
    to_int_of_range
      (z := -(((xa + 1) * Y : Nat) : Int) + ((X * ya : Nat) : Int)
        + ((xa * (ya + Y) : Nat) : Int)) (by omega) (by omega),
    to_int_of_range (by omega) (by omega)]
  push_cast
  ring

theorem ite_gt_min (a b : Nat) : (if a > b then b else a) = min a b := by
  split <;> omega

theorem ite_gt_max (a b : Nat) : (if a > b then a else b) = max a b := by
  split <;> omega

/-- The vertical case in the exact range: the loop writes the column from
`ya` to `yb` and returns. -/
theorem vertical_case_exact (target : hdr_image C) (x0 ya yb : Nat) (color : C)
    (hy : ya ≤ yb) (hW : x0 < target.width) (hH : yb < target.height)
    (hr : target.width * target.height ≤ 1073741824) :
    vertical_loop x0 yb color loop_fuel (to_int (ya : Int)) target
      = ⟨draw color target (column x0 ya (yb - ya + 1)), Status.returned,
         column x0 ya (yb - ya + 1), []⟩ := by
  have hHle : target.height ≤ 1073741824 :=
    le_trans (Nat.le_mul_of_pos_left _ (Nat.lt_of_le_of_lt (Nat.zero_le _) hW)) hr
  have hyb : yb < 1073741824 := Nat.lt_of_lt_of_le hH hHle
  have hya : to_int ((ya : Nat) : Int) = ((ya : Nat) : Int) := to_int_natCast (by omega)
  have hfuel : yb - ya + 1 < loop_fuel := by unfold loop_fuel; omega
  have hsum : ya + (yb - ya + 1) = yb + 1 := by omega
  rw [hya]
  exact vertical_loop_exact x0 yb color hyb _ _ _ target hfuel hsum hW hH

/-- The general case in the exact range: for normalised endpoints `xa < xb`,
`ya ≤ yb` the differences, the initial accumulator and the loop are computed
exactly, the loop follows `walk` from `(xa, ya)` with accumulator `ya - yb`,
and returns. -/
theorem general_case_exact (target : hdr_image C) (xa ya xb yb : Nat) (color : C)
    (hx : xa < xb) (hy : ya ≤ yb) (hW : xb < target.width) (hH : yb < target.height)
    (hr : target.width * target.height ≤ 1073741824) :
    general_loop xb (to_int (to_unsigned ((xb : Int) - (xa : Int))))
        (to_int (to_unsigned ((ya : Int) - (yb : Int)))) color loop_fuel
        (to_int (xa : Int)) (to_int (ya : Int))
        (initial_d xa ya xb yb (to_int (to_unsigned ((xb : Int) - (xa : Int))))
          (to_int (to_unsigned ((ya : Int) - (yb : Int))))) target
      = ⟨draw color target
          ((walk ((xb - xa : Nat) : Int) (-((yb - ya : Nat) : Int)) (xb - xa + 1) xa ya
            (-((yb - ya : Nat) : Int))).map state_pixel),
         Status.returned,
         (walk ((xb - xa : Nat) : Int) (-((yb - ya : Nat) : Int)) (xb - xa + 1) xa ya
            (-((yb - ya : Nat) : Int))).map state_pixel,
         (walk ((xb - xa : Nat) : Int) (-((yb - ya : Nat) : Int)) (xb - xa + 1) xa ya
            (-((yb - ya : Nat) : Int))).map state_d⟩ := by
  obtain ⟨X, rfl⟩ := Nat.exists_eq_add_of_le (Nat.le_of_lt hx)
  obtain ⟨Y, rfl⟩ := Nat.exists_eq_add_of_le hy
  have hWle : target.width ≤ 1073741824 :=
    le_trans (Nat.le_mul_of_pos_right _ (Nat.lt_of_le_of_lt (Nat.zero_le _) hH)) hr
  have hHle : target.height ≤ 1073741824 :=
    le_trans (Nat.le_mul_of_pos_left _ (Nat.lt_of_le_of_lt (Nat.zero_le _) hW)) hr
  have hXpos : 0 < X := by omega
  have hxa : to_int ((xa : Nat) : Int) = ((xa : Nat) : Int) := to_int_natCast (by omega)
  have hya : to_int ((ya : Nat) : Int) = ((ya : Nat) : Int) := to_int_natCast (by omega)
  have hdx : to_int (to_unsigned (((xa + X : Nat) : Int) - ((xa : Nat) : Int))) = (X : Int) := by
    rw [to_int_to_unsigned, to_int_of_range (by omega) (by omega)]; omega
  have hdy : to_int (to_unsigned (((ya : Nat) : Int) - ((ya + Y : Nat) : Int))) = -(Y : Int) := by
    rw [to_int_to_unsigned, to_int_of_range (by omega) (by omega)]; omega
  have hfuel : X + 1 < loop_fuel := by unfold loop_fuel; omega
  have hinv : X * 0 < Y * 0 + X := by rw [Nat.mul_zero, Nat.mul_zero, Nat.zero_add]; exact hXpos
  have hd0 : -(Y : Int) = (X : Int) * ((0 : Nat) : Int) - (Y : Int) * (((0 : Nat) : Int) + 1) := by
    push_cast; ring
  have hmain := general_loop_exact xa ya X Y color target.width target.height hW hH hr
    (X + 1) loop_fuel 0 0 (-(Y : Int)) target hfuel (Nat.zero_add _) hd0 hinv rfl rfl
  rw [Nat.add_sub_cancel_left, Nat.add_sub_cancel_left, hxa, hya, hdx, hdy,
    initial_d_exact xa ya X Y target.width target.height hW hH hr]
  exact hmain

/-- In the exact range a valid call returns, writes exactly the coordinates of
`segment_path`, in order, and tests exactly the accumulator values of
`segment_decisions`. -/
theorem rasterize_line_segment_exact (target : hdr_image C) (x0 y0 x1 y1 : Nat)
    (color : C) (hv : valid_call target x0 y0 x1 y1) (hr : exact_range target) :
    rasterize_line_segment target x0 y0 x1 y1 color
      = ⟨draw color target (segment_path x0 y0 x1 y1), Status.returned,
         segment_path x0 y0 x1 y1, segment_decisions x0 y0 x1 y1⟩ := by
  obtain ⟨he, h0, h1⟩ := hv
  have b0 := (is_xy_iff _ _ _).1 h0
  have b1 := (is_xy_iff _ _ _).1 h1
  have hxb : max x0 x1 < target.width := max_lt b0.1 b1.1
  have hyb : max y0 y1 < target.height := max_lt b0.2 b1.2
  unfold rasterize_line_segment
  rw [he, h0, h1]
  simp only [Bool.false_eq_true, if_false, Bool.not_true]
  unfold rasterize_body segment_path segment_decisions segment_states
  simp only [ite_gt_min, ite_gt_max]
  by_cases hx : x0 = x1
  · rw [if_pos hx, if_pos hx, if_pos hx]
    exact vertical_case_exact target x0 (min y0 y1) (max y0 y1) color min_le_max b0.1 hyb hr
  · rw [if_neg hx, if_neg hx, if_neg hx]
    have hlt : min x0 x1 < max x0 x1 := by
      rcases Nat.lt_or_gt_of_ne hx with h | h
      · rw [Nat.min_eq_left (Nat.le_of_lt h), Nat.max_eq_right (Nat.le_of_lt h)]; exact h
      · rw [Nat.min_eq_right (Nat.le_of_lt h), Nat.max_eq_left (Nat.le_of_lt h)]; exact h
    exact general_case_exact target (min x0 x1) (min y0 y1) (max x0 x1) (max y0 y1) color
      hlt min_le_max hxb hyb hr

/-! ## The buffer and the record of writes, for every execution -/

/-- The vertical loop leaves the buffer that its recorded writes produce. -/
theorem vertical_loop_target (x0 y1 : Nat) (color : C) :
    ∀ (fuel : Nat) (y : Int) (target : hdr_image C),
      (vertical_loop x0 y1 color fuel y target).target
        = draw color target (vertical_loop x0 y1 color fuel y target).plotted := by
  intro fuel
  induction fuel with
  | zero => intro y target; rfl
  | succ f ih =>
    intro y target
    simp only [vertical_loop]
    split
    · split
      · simp only [draw_cons]
        exact ih _ _
      · rfl
    · rfl

/-- The general loop leaves the buffer that its recorded writes produce. -/
theorem general_loop_target (x1 : Nat) (dx dy : Int) (color : C) :
    ∀ (fuel : Nat) (x y d : Int) (target : hdr_image C),
      (general_loop x1 dx dy color fuel x y d target).target
        = draw color target (general_loop x1 dx dy color fuel x y d target).plotted := by
  intro fuel
  induction fuel with
  | zero => intro x y d target; rfl
  | succ f ih =>
    intro x y d target
    simp only [general_loop]
    split
    · split
      · simp only [draw_cons]
        split
        · exact ih _ _ _ _
        · exact ih _ _ _ _
      · rfl
    · rfl

/-- Every execution of the rasterizer, whichever way it ends, leaves the buffer
that its recorded writes produce. -/
theorem rasterize_line_segment_target (target : hdr_image C) (x0 y0 x1 y1 : Nat)
    (color : C) :
    (rasterize_line_segment target x0 y0 x1 y1 color).target
      = draw color target (rasterize_line_segment target x0 y0 x1 y1 color).plotted := by
  unfold rasterize_line_segment
  split
  · rfl
  · split
    · rfl
    · split
      · rfl
      · unfold rasterize_body
        simp only []
        split
        · exact vertical_loop_target _ _ _ _ _ _
        · exact general_loop_target _ _ _ _ _ _ _ _ _

/-! ## The written coordinates -/

theorem mem_column (x0 y n a b : Nat) :
    (a, b) ∈ column x0 y n ↔ a = x0 ∧ y ≤ b ∧ b < y + n := by
  unfold column
  simp only [List.mem_map, List.mem_range'_1, Prod.mk.injEq]
  constructor
  · rintro ⟨k, hk, rfl, rfl⟩
    exact ⟨rfl, hk⟩
  · rintro ⟨rfl, hb⟩
    exact ⟨b, hb, rfl, rfl⟩

/-- With a zero vertical extent the accumulator stays at zero and the walk
stays in its row. -/
theorem walk_flat (dx : Int) :
    ∀ (n x y : Nat), walk dx 0 n x y 0 = (List.range' x n).map (fun a => (a, y, (0 : Int))) := by
  intro n
  induction n with
  | zero => intro x y; rfl
  | succ n ih =>
    intro x y
    rw [walk_succ, if_neg (lt_irrefl _)]
    simp only [add_zero]
    rw [ih]
    rfl

/-- Every state of a walk that starts in a state `i` columns and `j` rows from
`(xa, ya)` with accumulator `X * j - Y * (i + 1)` and `X * j < Y * i + X` is
again of that form, inside the rectangle `[xa, xa + X] x [ya, ya + Y]`. -/
theorem walk_invariant (xa ya X Y : Nat) :
    ∀ (n i j : Nat) (d : Int), i + n = X + 1 →
      d = (X : Int) * j - (Y : Int) * (i + 1) → X * j < Y * i + X →
      ∀ s ∈ walk X (-Y) n (xa + i) (ya + j) d,
        ∃ i1 j1 : Nat, s = (xa + i1, ya + j1, (X : Int) * j1 - (Y : Int) * (i1 + 1)) ∧
          i ≤ i1 ∧ i1 ≤ X ∧ j1 ≤ Y ∧ X * j1 < Y * i1 + X := by
  intro n
  induction n with
  | zero => intro i j d _ _ _ s hs; simp [walk] at hs
  | succ n ih =>
    intro i j d hi hd hinv s hs
    have hiX : i ≤ X := by omega
    have hin : i + 1 + n = X + 1 := by omega
    obtain ⟨hjY, hs1, hs2⟩ := loop_state_next X Y i j d hiX hd hinv
    rw [walk_succ] at hs
    rcases List.mem_cons.mp hs with h | hs
    · exact ⟨i, j, by rw [h, hd], le_refl _, hiX, hjY, hinv⟩
    · by_cases hneg : d < 0
      · rw [if_pos hneg] at hs
        obtain ⟨i1, j1, e, h1, h2⟩ :=
          ih (i + 1) (j + 1) _ hin (by rw [hd]; push_cast; ring) (hs1 hneg) s hs
        exact ⟨i1, j1, e, Nat.le_of_succ_le h1, h2⟩
      · rw [if_neg hneg] at hs
        obtain ⟨i1, j1, e, h1, h2⟩ :=
          ih (i + 1) j _ hin (by rw [hd]; push_cast; ring) hs2 s hs
        exact ⟨i1, j1, e, Nat.le_of_succ_le h1, h2⟩

/-- The states of the general case for endpoints with `x0 ≠ x1`: each is
`i ≤ X` columns and `j ≤ Y` rows from `(min x0 x1, min y0 y1)` and its
accumulator is `X * j - Y * (i + 1)`, where `X` and `Y` are the extents. -/
theorem segment_states_invariant (x0 y0 x1 y1 : Nat) (hx : x0 ≠ x1) :
    ∀ s ∈ segment_states x0 y0 x1 y1,
      ∃ i j : Nat,
        s = (min x0 x1 + i, min y0 y1 + j,
          ((max x0 x1 - min x0 x1 : Nat) : Int) * j
            - ((max y0 y1 - min y0 y1 : Nat) : Int) * (i + 1)) ∧
        i ≤ max x0 x1 - min x0 x1 ∧ j ≤ max y0 y1 - min y0 y1 ∧
        (max x0 x1 - min x0 x1) * j < (max y0 y1 - min y0 y1) * i + (max x0 x1 - min x0 x1) := by
  intro s hs
  have hXpos : 0 < max x0 x1 - min x0 x1 := by omega
  have hinv : (max x0 x1 - min x0 x1) * 0
      < (max y0 y1 - min y0 y1) * 0 + (max x0 x1 - min x0 x1) := by
    rw [Nat.mul_zero, Nat.mul_zero, Nat.zero_add]; exact hXpos
  obtain ⟨i, j, e, _, h1, h2, h3⟩ :=
    walk_invariant (min x0 x1) (min y0 y1) (max x0 x1 - min x0 x1) (max y0 y1 - min y0 y1)
      (max x0 x1 - min x0 x1 + 1) 0 0 (-((max y0 y1 - min y0 y1 : Nat) : Int))
      (Nat.zero_add _) (by push_cast; ring) hinv s hs
  exact ⟨i, j, e, h1, h2, h3⟩

/-- The written coordinates stay in the rectangle spanned by the endpoints. -/
theorem segment_path_bounds (x0 y0 x1 y1 : Nat) :
    ∀ p ∈ segment_path x0 y0 x1 y1,
      min x0 x1 ≤ p.1 ∧ p.1 ≤ max x0 x1 ∧ min y0 y1 ≤ p.2 ∧ p.2 ≤ max y0 y1 := by
  intro p hp
  unfold segment_path at hp
  by_cases hx : x0 = x1
  · rw [if_pos hx] at hp
    obtain ⟨a, b⟩ := p
    have h := (mem_column _ _ _ _ _).1 hp
    clear hp
    simp only
    omega
  · rw [if_neg hx] at hp
    obtain ⟨s, hs, rfl⟩ := List.mem_map.mp hp
    obtain ⟨i, j, rfl, h1, h2, _⟩ := segment_states_invariant x0 y0 x1 y1 hx s hs
    clear hs hp
    unfold state_pixel
    simp only
    omega

/-! ## The loops for every buffer size -/

theorem returned_ne_out_of_fuel : Status.returned ≠ Status.out_of_fuel := by decide

theorem violation_ne_out_of_fuel : Status.violation ≠ Status.out_of_fuel := by decide

/-- The vertical loop for any rows that are values of `unsigned`: started at row
`y` with `n` rows to go, it writes the column `y, ..., y1` of `x0` and
returns. -/
theorem vertical_loop_wide (x0 y1 : Nat) (color : C) (hy1 : y1 < 4294967295) :
    ∀ (n fuel y : Nat) (target : hdr_image C), n < fuel → y + n = y1 + 1 →
      x0 < target.width → y1 < target.height →
      vertical_loop x0 y1 color fuel (to_int (y : Int)) target
        = ⟨draw color target (column x0 y n), Status.returned, column x0 y n, []⟩ := by
  intro n
  induction n with
  | zero =>
    intro fuel y target hf hy _ _
    obtain ⟨f, rfl⟩ := Nat.exists_eq_succ_of_ne_zero (by omega : fuel ≠ 0)
    have hu : to_unsigned (to_int (y : Int)) = y := by
      rw [to_unsigned_to_int]; exact to_unsigned_natCast (by omega)
    simp only [vertical_loop, hu]
    rw [if_neg (by omega)]
    rfl
  | succ n ih =>
    intro fuel y target hf hy hx hh
    obtain ⟨f, rfl⟩ := Nat.exists_eq_succ_of_ne_zero (by omega : fuel ≠ 0)
    have hu : to_unsigned (to_int (y : Int)) = y := by
      rw [to_unsigned_to_int]; exact to_unsigned_natCast (by omega)
    have hi : to_int (to_int (y : Int) + 1) = to_int (((y + 1 : Nat) : Int)) := by
      rw [to_int_add_one]; rfl
    have hxy : target.is_xy x0 y = true := (is_xy_iff _ _ _).2 ⟨hx, by omega⟩
    simp only [vertical_loop, hu, hi]
    rw [if_pos (by omega), if_pos hxy]
    rw [ih f (y + 1) (target.pixel_set x0 y color) (by omega) (by omega) hx hh, column_succ]
    rfl

/-- The vertical case for a buffer whose dimensions are values of `unsigned`:
a valid call with `x0 = x1` returns after writing the column from
`min y0 y1` to `max y0 y1`, without entering the general loop. -/
theorem rasterize_vertical_exact (target : hdr_image C) (x0 y0 x1 y1 : Nat) (color : C)
    (hv : valid_call target x0 y0 x1 y1) (hu : unsigned_dimensions target) (hx : x0 = x1) :
    rasterize_line_segment target x0 y0 x1 y1 color
      = ⟨draw color target (column x0 (min y0 y1) (max y0 y1 - min y0 y1 + 1)),
         Status.returned, column x0 (min y0 y1) (max y0 y1 - min y0 y1 + 1), []⟩ := by
  obtain ⟨he, h0, h1⟩ := hv
  have b0 := (is_xy_iff _ _ _).1 h0
  have b1 := (is_xy_iff _ _ _).1 h1
  have hyb : max y0 y1 < target.height := max_lt b0.2 b1.2
  have hyb2 : max y0 y1 < 4294967295 := Nat.lt_of_lt_of_le hyb hu.2
  have hle : min y0 y1 ≤ max y0 y1 := min_le_max
  have hfuel : max y0 y1 - min y0 y1 + 1 < loop_fuel := by
    unfold loop_fuel
    clear he h0 h1 b0 b1 hyb hu hx
    omega
  have hsum : min y0 y1 + (max y0 y1 - min y0 y1 + 1) = max y0 y1 + 1 := by
    clear he h0 h1 b0 b1 hyb hu hx hfuel hyb2
    omega
  unfold rasterize_line_segment
  rw [he, h0, h1]
  simp only [Bool.false_eq_true, if_false, Bool.not_true]
  unfold rasterize_body
  simp only [ite_gt_min, ite_gt_max]
  rw [if_pos hx]
  exact vertical_loop_wide x0 (max y0 y1) color hyb2 _ _ _ target hfuel hsum b0.1 hyb

/-- The general loop ends: with the counter at column `x` and `n` columns to go
up to `x1`, it stops (by returning or at a failed bounds assertion) before the
fuel runs out, after at most `n` writes. -/
theorem general_loop_bound (x1 : Nat) (dx dy : Int) (color : C) (hx1 : x1 < 4294967295) :
    ∀ (n fuel x : Nat) (y d : Int) (target : hdr_image C), n < fuel → x + n = x1 + 1 →
      (general_loop x1 dx dy color fuel (to_int (x : Int)) y d target).status
        ≠ Status.out_of_fuel ∧
      (general_loop x1 dx dy color fuel (to_int (x : Int)) y d target).plotted.length ≤ n := by
  intro n
  induction n with
  | zero =>
    intro fuel x y d target hf hx
    obtain ⟨f, rfl⟩ := Nat.exists_eq_succ_of_ne_zero (by omega : fuel ≠ 0)
    have hu : to_unsigned (to_int (x : Int)) = x := by
      rw [to_unsigned_to_int]; exact to_unsigned_natCast (by omega)
    simp only [general_loop, hu]
    rw [if_neg (by omega)]
    exact ⟨returned_ne_out_of_fuel, Nat.le_refl _⟩
  | succ n ih =>
    intro fuel x y d target hf hx
    obtain ⟨f, rfl⟩ := Nat.exists_eq_succ_of_ne_zero (by omega : fuel ≠ 0)
    have hu : to_unsigned (to_int (x : Int)) = x := by
      rw [to_unsigned_to_int]; exact to_unsigned_natCast (by omega)
    have hi : to_int (to_int (x : Int) + 1) = to_int (((x + 1 : Nat) : Int)) := by
      rw [to_int_add_one]; rfl
    simp only [general_loop, hu, hi]
    rw [if_pos (by omega)]
    by_cases hxy : target.is_xy x (to_unsigned y) = true
    · rw [if_pos hxy]
      by_cases hd : d < 0
      · rw [if_pos hd]
        have h := ih f (x + 1) (to_int (y + 1)) (to_int (d + to_int (dx + dy)))
          (target.pixel_set x (to_unsigned y) color) (by omega) (by omega)
        exact ⟨h.1, Nat.succ_le_succ h.2⟩
      · rw [if_neg hd]
        have h := ih f (x + 1) y (to_int (d + dy))
          (target.pixel_set x (to_unsigned y) color) (by omega) (by omega)
        exact ⟨h.1, Nat.succ_le_succ h.2⟩
    · rw [if_neg hxy]
      exact ⟨violation_ne_out_of_fuel, Nat.zero_le _⟩

theorem row_succ (x y n : Nat) : row x y (n + 1) = (x, y) :: row (x + 1) y n := by
  unfold row
  rw [List.range'_succ, List.map_cons]

theorem mem_row (x y n a b : Nat) : (a, b) ∈ row x y n ↔ (b = y ∧ x ≤ a ∧ a < x + n) := by
  unfold row
  simp only [List.mem_map, List.mem_range'_1, Prod.mk.injEq]
  constructor
  · rintro ⟨k, hk, rfl, rfl⟩
    exact ⟨rfl, hk.1, hk.2⟩
  · rintro ⟨rfl, h1, h2⟩
    exact ⟨a, ⟨h1, h2⟩, rfl, rfl⟩

/-- The initial accumulator of a horizontal segment (`y0 = y1`) in a row that
is a value of `int`: the four terms cancel modulo `2^32`, whatever the
columns. -/
theorem initial_d_horizontal (xa xb ya : Nat) (hy : ya < 2147483648) :
    initial_d xa ya xb ya (to_int (to_unsigned ((xb : Int) - (xa : Int))))
      (to_int (to_unsigned ((ya : Int) - (ya : Int)))) = 0 := by
  have hcast : half_pixel_cast ya = (ya : Int) := half_pixel_cast_eq hy
  have hdx : to_int ((xb : Int) - (xa : Int)) ≡ (xb : Int) - (xa : Int)
      [ZMOD 4294967296] := to_int_modEq _
  have hdy : to_int (to_unsigned ((ya : Int) - (ya : Int))) = 0 := by
    rw [sub_self]; rfl
  unfold initial_d
  rw [hcast, hdy, zero_mul]
  simp only [to_int_to_unsigned]
  refine (to_int_congr ?_).trans to_int_zero
  have hA : to_int 0 ≡ 0 [ZMOD 4294967296] := to_int_modEq 0
  have hB : to_int (to_int ((xb : Int) - (xa : Int)) * (ya : Int))
      ≡ ((xb : Int) - (xa : Int)) * (ya : Int) [ZMOD 4294967296] :=
    (to_int_modEq _).trans (hdx.mul_right _)
  have hC := to_int_modEq ((xa : Int) * (ya : Int))
  have hD := to_int_modEq ((xb : Int) * (ya : Int))
  have h1 := (to_int_modEq _).trans (hA.add hB)
  have h2 := (to_int_modEq _).trans (h1.add hC)
  have h3 := h2.sub hD
  refine h3.trans ?_
  have e : 0 + ((xb : Int) - (xa : Int)) * (ya : Int) + (xa : Int) * (ya : Int)
      - (xb : Int) * (ya : Int) = 0 := by ring
  rw [e]

/-- The general loop with `dy = 0` and the accumulator at `0`: started at
column `x` with `n` columns to go, it writes the row `x, ..., x1` of `ya`,
testing the accumulator value `0` each time, and returns. -/
theorem general_loop_horizontal (x1 ya : Nat) (dx : Int) (color : C)
    (hx1 : x1 < 4294967295) (hya : ya < 4294967296) :
    ∀ (n fuel x : Nat) (target : hdr_image C), n < fuel → x + n = x1 + 1 →
      x1 < target.width → ya < target.height →
      general_loop x1 dx 0 color fuel (to_int (x : Int)) (to_int (ya : Int)) 0 target
        = ⟨draw color target (row x ya n), Status.returned, row x ya n, List.replicate n 0⟩ := by
  have huy : to_unsigned (to_int (ya : Int)) = ya := by
    rw [to_unsigned_to_int]; exact to_unsigned_natCast hya
  intro n
  induction n with
  | zero =>
    intro fuel x target hf hx _ _
    obtain ⟨f, rfl⟩ := Nat.exists_eq_succ_of_ne_zero (by omega : fuel ≠ 0)
    have hu : to_unsigned (to_int (x : Int)) = x := by
      rw [to_unsigned_to_int]; exact to_unsigned_natCast (by omega)
    simp only [general_loop, hu]
    rw [if_neg (by omega)]
    rfl
  | succ n ih =>
    intro fuel x target hf hx hw hh
    obtain ⟨f, rfl⟩ := Nat.exists_eq_succ_of_ne_zero (by omega : fuel ≠ 0)
    have hu : to_unsigned (to_int (x : Int)) = x := by
      rw [to_unsigned_to_int]; exact to_unsigned_natCast (by omega)
    have hi : to_int (to_int (x : Int) + 1) = to_int (((x + 1 : Nat) : Int)) := by
      rw [to_int_add_one]; rfl
    have hxy : target.is_xy x ya = true := (is_xy_iff _ _ _).2 ⟨by omega, hh⟩
    have hd : to_int ((0 : Int) + 0) = 0 := rfl
    simp only [general_loop, hu, huy, hi, hd]
    rw [if_pos (by omega), if_pos hxy, if_neg (by decide)]
    rw [ih f (x + 1) (target.pixel_set x ya color) (by omega) (by omega) hw hh, row_succ]
    rfl

theorem is_xy_of_dimensions (t1 t2 : hdr_image C) (hw : t1.width = t2.width)
    (hh : t1.height = t2.height) (x y : Nat) : t1.is_xy x y = t2.is_xy x y := by
  unfold hdr_image.is_xy
  rw [hw, hh]

/-- The vertical loop never reads a pixel: how it ends and what it writes
depend on the dimensions of the buffer only, not on its contents nor on the
colour. -/
theorem vertical_loop_shape (x0 y1 : Nat) (c1 c2 : C) :
    ∀ (fuel : Nat) (y : Int) (t1 t2 : hdr_image C),
      t1.width = t2.width → t1.height = t2.height →
      (vertical_loop x0 y1 c1 fuel y t1).status = (vertical_loop x0 y1 c2 fuel y t2).status ∧
      (vertical_loop x0 y1 c1 fuel y t1).plotted = (vertical_loop x0 y1 c2 fuel y t2).plotted ∧
      (vertical_loop x0 y1 c1 fuel y t1).decisions
        = (vertical_loop x0 y1 c2 fuel y t2).decisions := by
  intro fuel
  induction fuel with
  | zero => intro y t1 t2 _ _; exact ⟨rfl, rfl, rfl⟩
  | succ f ih =>
    intro y t1 t2 hw hh
    simp only [vertical_loop]
    rw [is_xy_of_dimensions t1 t2 hw hh]
    by_cases hy : to_unsigned y ≤ y1
    · rw [if_pos hy, if_pos hy]
      by_cases hxy : t2.is_xy x0 (to_unsigned y) = true
      · rw [if_pos hxy, if_pos hxy]
        obtain ⟨h1, h2, h3⟩ := ih (to_int (y + 1)) (t1.pixel_set x0 (to_unsigned y) c1)
          (t2.pixel_set x0 (to_unsigned y) c2) hw hh
        exact ⟨h1, by simp only [h2], h3⟩
      · rw [if_neg hxy, if_neg hxy]
        exact ⟨rfl, rfl, rfl⟩
    · rw [if_neg hy, if_neg hy]
      exact ⟨rfl, rfl, rfl⟩

/-- The general loop never reads a pixel: how it ends, what it writes and the
accumulator values it tests depend on the dimensions of the buffer only. -/
theorem general_loop_shape (x1 : Nat) (dx dy : Int) (c1 c2 : C) :
    ∀ (fuel : Nat) (x y d : Int) (t1 t2 : hdr_image C),
      t1.width = t2.width → t1.height = t2.height →
      (general_loop x1 dx dy c1 fuel x y d t1).status
        = (general_loop x1 dx dy c2 fuel x y d t2).status ∧
      (general_loop x1 dx dy c1 fuel x y d t1).plotted
        = (general_loop x1 dx dy c2 fuel x y d t2).plotted ∧
      (general_loop x1 dx dy c1 fuel x y d t1).decisions
        = (general_loop x1 dx dy c2 fuel x y d t2).decisions := by
  intro fuel
  induction fuel with
  | zero => intro x y d t1 t2 _ _; exact ⟨rfl, rfl, rfl⟩
  | succ f ih =>
    intro x y d t1 t2 hw hh
    simp only [general_loop]
    rw [is_xy_of_dimensions t1 t2 hw hh]
    by_cases hx : to_unsigned x ≤ x1
    · rw [if_pos hx, if_pos hx]
      by_cases hxy : t2.is_xy (to_unsigned x) (to_unsigned y) = true
      · rw [if_pos hxy, if_pos hxy]
        by_cases hd : d < 0
        · rw [if_pos hd, if_pos hd]
          obtain ⟨h1, h2, h3⟩ := ih (to_int (x + 1)) (to_int (y + 1))
            (to_int (d + to_int (dx + dy)))
            (t1.pixel_set (to_unsigned x) (to_unsigned y) c1)
            (t2.pixel_set (to_unsigned x) (to_unsigned y) c2) hw hh
          exact ⟨h1, by simp only [h2], by simp only [h3]⟩
        · rw [if_neg hd, if_neg hd]
          obtain ⟨h1, h2, h3⟩ := ih (to_int (x + 1)) y (to_int (d + dy))
            (t1.pixel_set (to_unsigned x) (to_unsigned y) c1)
            (t2.pixel_set (to_unsigned x) (to_unsigned y) c2) hw hh
          exact ⟨h1, by simp only [h2], by simp only [h3]⟩
      · rw [if_neg hxy, if_neg hxy]
        exact ⟨rfl, rfl, rfl⟩
    · rw [if_neg hx, if_neg hx]
      exact ⟨rfl, rfl, rfl⟩

/-- The rasterizer never reads a pixel: on two buffers of the same dimensions,
with any two colours, a call ends the same way after the same writes and the
same accumulator tests. -/
theorem rasterize_line_segment_shape (t1 t2 : hdr_image C) (x0 y0 x1 y1 : Nat) (c1 c2 : C)
    (hw : t1.width = t2.width) (hh : t1.height = t2.height) :
    (rasterize_line_segment t1 x0 y0 x1 y1 c1).status
      = (rasterize_line_segment t2 x0 y0 x1 y1 c2).status ∧
    (rasterize_line_segment t1 x0 y0 x1 y1 c1).plotted
      = (rasterize_line_segment t2 x0 y0 x1 y1 c2).plotted ∧
    (rasterize_line_segment t1 x0 y0 x1 y1 c1).decisions
      = (rasterize_line_segment t2 x0 y0 x1 y1 c2).decisions := by
  have he : t1.is_empty = t2.is_empty := by
    unfold hdr_image.is_empty
    rw [hw, hh]
  unfold rasterize_line_segment
  rw [he, is_xy_of_dimensions t1 t2 hw hh, is_xy_of_dimensions t1 t2 hw hh]
  by_cases h1 : t2.is_empty = true
  · rw [if_pos h1, if_pos h1]
    exact ⟨rfl, rfl, rfl⟩
  · rw [if_neg h1, if_neg h1]
    by_cases h2 : (!t2.is_xy x0 y0) = true
    · rw [if_pos h2, if_pos h2]
      exact ⟨rfl, rfl, rfl⟩
    · rw [if_neg h2, if_neg h2]
      by_cases h3 : (!t2.is_xy x1 y1) = true
      · rw [if_pos h3, if_pos h3]
        exact ⟨rfl, rfl, rfl⟩
      · rw [if_neg h3, if_neg h3]
        unfold rasterize_body
        simp only []
        by_cases hx : x0 = x1
        · rw [if_pos hx, if_pos hx]
          exact vertical_loop_shape _ _ c1 c2 _ _ t1 t2 hw hh
        · rw [if_neg hx, if_neg hx]
          exact general_loop_shape _ _ _ c1 c2 _ _ _ _ t1 t2 hw hh

/-! ## Properties of `rasterize_line_segment` -/

/-- C1, the code at a failing input.  Endpoint inclusion says that both
endpoints are coloured.  On an 11x11 buffer filled with colour `0` the call from
`(5,5)` to `(10,0)` with colour `1` returns after writing
`(5,0), (6,1), (7,2), (8,3), (9,4), (10,5)`: neither endpoint was written and
both still hold the background colour. -/
theorem endpoint_inclusion_failing_input :
    (rasterize_line_segment (filled 11 11 (0 : Nat)) 5 5 10 0 1).status = Status.returned ∧
    (rasterize_line_segment (filled 11 11 (0 : Nat)) 5 5 10 0 1).plotted
      = [(5, 0), (6, 1), (7, 2), (8, 3), (9, 4), (10, 5)] ∧
    (rasterize_line_segment (filled 11 11 (0 : Nat)) 5 5 10 0 1).target.pixel 5 5 = some 0 ∧
    (rasterize_line_segment (filled 11 11 (0 : Nat)) 5 5 10 0 1).target.pixel 10 0 = some 0 := by
  decide

theorem rasterize_body_swap (target : hdr_image C) (x0 y0 x1 y1 : Nat) (color : C) :
    rasterize_body target x0 y0 x1 y1 color = rasterize_body target x1 y1 x0 y0 color := by
  unfold rasterize_body
  simp only [ite_gt_min, ite_gt_max]
  by_cases hx : x0 = x1
  · subst hx
    rw [Nat.min_comm y0 y1, Nat.max_comm y0 y1]
  · have hx2 : ¬ x1 = x0 := fun h => hx h.symm
    rw [if_neg hx, if_neg hx2, Nat.min_comm y0 y1, Nat.max_comm y0 y1,
      Nat.min_comm x0 x1, Nat.max_comm x0 x1]

/-- C2, symmetry under endpoint swap.  For every buffer, every two points
`(x0,y0)` and `(x1,y1)` and every colour, the call from `(x0,y0)` to `(x1,y1)`
and the call from `(x1,y1)` to `(x0,y0)` on the same initial buffer have the
same outcome: the same writes in the same order, equal final buffers and the
same way of ending. -/
theorem symmetry_under_endpoint_swap (target : hdr_image C) (x0 y0 x1 y1 : Nat)
    (color : C) :
    rasterize_line_segment target x0 y0 x1 y1 color
      = rasterize_line_segment target x1 y1 x0 y0 color := by
  unfold rasterize_line_segment
  rw [rasterize_body_swap]
  cases target.is_empty <;> cases target.is_xy x0 y0 <;> cases target.is_xy x1 y1 <;> rfl

/-- C3, non-interference.  After every call, a pixel whose coordinates are not
among the written ones holds the value it held before the call, and a pixel
whose coordinates are among the written ones holds `color`. -/
theorem non_interference (target : hdr_image C) (x0 y0 x1 y1 : Nat) (color : C)
    (a b : Nat) :
    ((a, b) ∉ (rasterize_line_segment target x0 y0 x1 y1 color).plotted →
      (rasterize_line_segment target x0 y0 x1 y1 color).target.pixels a b
        = target.pixels a b) ∧
    ((a, b) ∈ (rasterize_line_segment target x0 y0 x1 y1 color).plotted →
      (rasterize_line_segment target x0 y0 x1 y1 color).target.pixels a b = color) := by
  rw [rasterize_line_segment_target]
  exact ⟨draw_pixels_of_not_mem _ _ _ _ _, draw_pixels_of_mem _ _ _ _ _⟩

/-- C4, degenerate segment.  For every non-empty buffer (its dimensions being
values of `unsigned`) and every valid point `(x,y)`, the call from `(x,y)` to
`(x,y)` returns after exactly one write, at `(x,y)`, without entering the
general loop; `(x,y)` then holds `color` and every other pixel holds its
previous value. -/
theorem degenerate_segment (target : hdr_image C) (x y : Nat) (color : C)
    (hv : valid_call target x y x y) (hu : unsigned_dimensions target) :
    (rasterize_line_segment target x y x y color).status = Status.returned ∧
    (rasterize_line_segment target x y x y color).plotted = [(x, y)] ∧
    (rasterize_line_segment target x y x y color).decisions = [] ∧
    (rasterize_line_segment target x y x y color).target.pixels x y = color ∧
    ∀ a b : Nat, (a, b) ≠ (x, y) →
      (rasterize_line_segment target x y x y color).target.pixels a b
        = target.pixels a b := by
  rw [rasterize_vertical_exact target x y x y color hv hu rfl]
  have hp : column x (min y y) (max y y - min y y + 1) = [(x, y)] := by
    rw [Nat.min_self, Nat.max_self, Nat.sub_self]
    rfl
  rw [hp]
  refine ⟨rfl, rfl, rfl, ?_, ?_⟩
  · simp [draw, hdr_image.pixel_set]
  · intro a b hab
    apply draw_pixels_of_not_mem
    simpa using hab

/-- C4 at a concrete input: the call from `(1,1)` to `(1,1)` on a 3x3 buffer. -/
theorem degenerate_segment_witness :
    valid_call (filled 3 3 (0 : Nat)) 1 1 1 1 ∧ unsigned_dimensions (filled 3 3 (0 : Nat)) ∧
    (rasterize_line_segment (filled 3 3 (0 : Nat)) 1 1 1 1 7).status = Status.returned ∧
    (rasterize_line_segment (filled 3 3 (0 : Nat)) 1 1 1 1 7).plotted = [(1, 1)] ∧
    (rasterize_line_segment (filled 3 3 (0 : Nat)) 1 1 1 1 7).decisions = [] ∧
    (rasterize_line_segment (filled 3 3 (0 : Nat)) 1 1 1 1 7).target.pixels 1 1 = 7 ∧
    ∀ a b : Nat, (a, b) ≠ (1, 1) →
      (rasterize_line_segment (filled 3 3 (0 : Nat)) 1 1 1 1 7).target.pixels a b
        = (filled 3 3 (0 : Nat)).pixels a b :=
  ⟨by decide, by decide, degenerate_segment (filled 3 3 (0 : Nat)) 1 1 7 (by decide) (by decide)⟩

/-- C5, the claim at a concrete input.  On a buffer of 4 columns and
4000000000 rows, whose dimensions are values of `unsigned`, the horizontal call
from `(0, 3999999999)` to `(3, 3999999999)` is valid.  The row is not a value of
`int`, the conversion `(int)(y0 + 0.5)` gives `INT_MIN` and the accumulator
starts at `-1262581757` instead of `0`: after the write at `(0, 3999999999)`
the row advances to `4000000000`, outside the buffer, and the bounds assertion
of the next write fails.  The written pixels are not the run from column 0 to
column 3. -/
theorem horizontal_exactness_counterexample :
    valid_call (filled 4 4000000000 (0 : Nat)) 0 3999999999 3 3999999999 ∧
    unsigned_dimensions (filled 4 4000000000 (0 : Nat)) ∧
    (rasterize_line_segment (filled 4 4000000000 (0 : Nat)) 0 3999999999 3 3999999999 1).status
      = Status.violation ∧
    (rasterize_line_segment (filled 4 4000000000 (0 : Nat)) 0 3999999999 3 3999999999 1).plotted
      = [(0, 3999999999)] ∧
    (rasterize_line_segment (filled 4 4000000000 (0 : Nat)) 0 3999999999 3 3999999999 1).decisions
      = [-1262581757] ∧
    (3, 3999999999) ∉
      (rasterize_line_segment (filled 4 4000000000 (0 : Nat)) 0 3999999999 3 3999999999 1).plotted := by
  decide

/-- C5 as amended, horizontal exactness.  For every valid call with
`y0 = y1`, the row being a value of `int` (`y0 < 2^31`, so that the conversion
`(int)(y0 + 0.5)` is defined) and the dimensions of the buffer values of
`unsigned`, in either order of `x0` and `x1`: the call returns, the written
pixels are exactly the `(a, y0)` with `min x0 x1 ≤ a ≤ max x0 x1`, and every
accumulator value tested in the general loop is `0`. -/
theorem horizontal_exactness (target : hdr_image C) (x0 y0 x1 y1 : Nat) (color : C)
    (hv : valid_call target x0 y0 x1 y1) (hu : unsigned_dimensions target) (hy : y0 = y1)
    (hrow : y0 < 2147483648) :
    (rasterize_line_segment target x0 y0 x1 y1 color).status = Status.returned ∧
    (∀ a b : Nat, (a, b) ∈ (rasterize_line_segment target x0 y0 x1 y1 color).plotted ↔
      (b = y0 ∧ min x0 x1 ≤ a ∧ a ≤ max x0 x1)) ∧
    ∀ d ∈ (rasterize_line_segment target x0 y0 x1 y1 color).decisions, d = 0 := by
  subst hy
  by_cases hx : x0 = x1
  · rw [rasterize_vertical_exact target x0 y0 x1 y0 color hv hu hx]
    subst hx
    refine ⟨rfl, ?_, ?_⟩
    · intro a b
      simp only [Nat.min_self, Nat.max_self, Nat.sub_self]
      rw [mem_column]
      clear hv hu
      omega
    · intro d hd
      simp at hd
  · obtain ⟨he, h0, h1⟩ := hv
    have b0 := (is_xy_iff _ _ _).1 h0
    have b1 := (is_xy_iff _ _ _).1 h1
    have hxw : max x0 x1 < target.width := max_lt b0.1 b1.1
    have hxb : max x0 x1 < 4294967295 := Nat.lt_of_lt_of_le hxw hu.1
    have hfuel : max x0 x1 - min x0 x1 + 1 < loop_fuel := by
      unfold loop_fuel
      clear he h0 h1 b0 b1 hu hx hxw
      omega
    have hsum : min x0 x1 + (max x0 x1 - min x0 x1 + 1) = max x0 x1 + 1 := by
      clear he h0 h1 b0 b1 hu hx hfuel hxb hxw
      omega
    have hrun : rasterize_line_segment target x0 y0 x1 y0 color
        = ⟨draw color target (row (min x0 x1) y0 (max x0 x1 - min x0 x1 + 1)), Status.returned,
            row (min x0 x1) y0 (max x0 x1 - min x0 x1 + 1),
            List.replicate (max x0 x1 - min x0 x1 + 1) 0⟩ := by
      unfold rasterize_line_segment
      rw [he, h0, h1]
      simp only [Bool.false_eq_true, if_false, Bool.not_true]
      unfold rasterize_body
      simp only [ite_gt_min, ite_gt_max, Nat.min_self, Nat.max_self]
      rw [if_neg hx, initial_d_horizontal (min x0 x1) (max x0 x1) y0 hrow]
      have hdy : to_int (to_unsigned ((y0 : Int) - (y0 : Int))) = 0 := by
        rw [sub_self]; rfl
      rw [hdy]
      exact general_loop_horizontal (max x0 x1) y0 _ color hxb (by omega) _ _ _ target
        hfuel hsum hxw b0.2
    rw [hrun]
    refine ⟨rfl, ?_, ?_⟩
    · intro a b
      simp only
      rw [mem_row]
      clear he h0 h1 b0 b1 hu hx hfuel hxb hxw hrun
      omega
    · intro d hd
      exact List.eq_of_mem_replicate hd

/-- C5 as amended, at a concrete input: the call from `(5,5)` to `(0,5)` on an
11x11 buffer. -/
theorem horizontal_exactness_witness :
    valid_call (filled 11 11 (0 : Nat)) 5 5 0 5 ∧
    unsigned_dimensions (filled 11 11 (0 : Nat)) ∧ (5 : Nat) < 2147483648 ∧
    (rasterize_line_segment (filled 11 11 (0 : Nat)) 5 5 0 5 1).status = Status.returned ∧
    (∀ a b : Nat, (a, b) ∈ (rasterize_line_segment (filled 11 11 (0 : Nat)) 5 5 0 5 1).plotted ↔
      (b = 5 ∧ min 5 0 ≤ a ∧ a ≤ max 5 0)) ∧
    ∀ d ∈ (rasterize_line_segment (filled 11 11 (0 : Nat)) 5 5 0 5 1).decisions, d = 0 :=
  ⟨by decide, by decide, by decide,
    horizontal_exactness (filled 11 11 (0 : Nat)) 5 5 0 5 1 (by decide) (by decide) rfl
      (by decide)⟩

/-- C6, vertical exactness.  For every valid call with `x0 = x1` (the
dimensions of the buffer being values of `unsigned`), in either order of `y0`
and `y1`, the call returns and the written pixels are exactly the `(x0, b)`
with `min y0 y1 ≤ b ≤ max y0 y1`. -/
theorem vertical_exactness (target : hdr_image C) (x0 y0 x1 y1 : Nat) (color : C)
    (hv : valid_call target x0 y0 x1 y1) (hu : unsigned_dimensions target) (hx : x0 = x1) :
    (rasterize_line_segment target x0 y0 x1 y1 color).status = Status.returned ∧
    ∀ a b : Nat, (a, b) ∈ (rasterize_line_segment target x0 y0 x1 y1 color).plotted ↔
      (a = x0 ∧ min y0 y1 ≤ b ∧ b ≤ max y0 y1) := by
  rw [rasterize_vertical_exact target x0 y0 x1 y1 color hv hu hx]
  refine ⟨rfl, ?_⟩
  intro a b
  simp only
  rw [mem_column]
  clear hv hu
  omega

/-- C6 at a concrete input: the call from `(5,5)` to `(5,0)` on an 11x11
buffer. -/
theorem vertical_exactness_witness :
    valid_call (filled 11 11 (0 : Nat)) 5 5 5 0 ∧ unsigned_dimensions (filled 11 11 (0 : Nat)) ∧
    (rasterize_line_segment (filled 11 11 (0 : Nat)) 5 5 5 0 1).status = Status.returned ∧
    ∀ a b : Nat, (a, b) ∈ (rasterize_line_segment (filled 11 11 (0 : Nat)) 5 5 5 0 1).plotted ↔
      (a = 5 ∧ min 5 0 ≤ b ∧ b ≤ max 5 0) :=
  ⟨by decide, by decide,
    vertical_exactness (filled 11 11 (0 : Nat)) 5 5 5 0 1 (by decide) (by decide) rfl⟩

/-- C7, the code at a failing input.  For the diagonal from `(5,5)` to `(10,0)`
the claim gives the pixels `(5 + i, 5 - i)` for `0 ≤ i ≤ 5`.  On an 11x11
buffer the call returns after writing `(5,0), (6,1), (7,2), (8,3), (9,4), (10,5)`:
the diagonal of the other direction, of which none is one of the claimed six
pixels. -/
theorem diagonal_failing_input :
    (rasterize_line_segment (filled 11 11 (0 : Nat)) 5 5 10 0 1).plotted
      = [(5, 0), (6, 1), (7, 2), (8, 3), (9, 4), (10, 5)] ∧
    ∀ i : Fin 6,
      (5 + i.val, 5 - i.val) ∉ (rasterize_line_segment (filled 11 11 (0 : Nat)) 5 5 10 0 1).plotted := by
  decide

/-- C8, the code at a failing input.  On an 11x11 buffer the call from `(5,5)`
to `(6,10)` returns after writing `(5,5)` and `(6,6)` only, so no ordering of
the written pixels is an 8-connected path from `(5,5)` to `(6,10)`. -/
theorem connectivity_failing_input :
    (rasterize_line_segment (filled 11 11 (0 : Nat)) 5 5 6 10 1).status = Status.returned ∧
    (rasterize_line_segment (filled 11 11 (0 : Nat)) 5 5 6 10 1).plotted = [(5, 5), (6, 6)] ∧
    ¬ ∃ path : List (Nat × Nat),
      (∀ p, p ∈ path ↔ p ∈ (rasterize_line_segment (filled 11 11 (0 : Nat)) 5 5 6 10 1).plotted) ∧
      connects (5, 5) (6, 10) path := by
  refine ⟨by decide, by decide, ?_⟩
  rintro ⟨path, hmem, _, hlast, _⟩
  have h1 : (6, 10) ∈ path := List.mem_of_getLast?_eq_some hlast
  have h2 := (hmem (6, 10)).1 h1
  revert h2
  decide

/-- C9, fail-fast on misuse.  If the buffer is empty, or `(x0,y0)` is not a
valid coordinate of it, or `(x1,y1)` is not, the call ends with an assertion
violation, nothing has been written and the buffer is the one it was given. -/
theorem fail_fast_on_misuse (target : hdr_image C) (x0 y0 x1 y1 : Nat) (color : C)
    (h : target.is_empty = true ∨ target.is_xy x0 y0 = false ∨ target.is_xy x1 y1 = false) :
    rasterize_line_segment target x0 y0 x1 y1 color
      = ⟨target, Status.violation, [], []⟩ := by
  unfold rasterize_line_segment
  rcases h with h | h | h
  · rw [if_pos h]
  · rw [h]
    cases target.is_empty <;> rfl
  · rw [h]
    cases target.is_empty <;> cases target.is_xy x0 y0 <;> rfl

/-- C9 at a concrete input: the second endpoint `(11,0)` is outside an 11x11
buffer. -/
theorem fail_fast_on_misuse_witness :
    ((filled 11 11 (0 : Nat)).is_empty = true ∨ (filled 11 11 (0 : Nat)).is_xy 5 5 = false ∨
      (filled 11 11 (0 : Nat)).is_xy 11 0 = false) ∧
    rasterize_line_segment (filled 11 11 (0 : Nat)) 5 5 11 0 1
      = ⟨filled 11 11 (0 : Nat), Status.violation, [], []⟩ :=
  ⟨by decide, fail_fast_on_misuse (filled 11 11 (0 : Nat)) 5 5 11 0 1 (by decide)⟩

theorem walk_length (dx dy : Int) :
    ∀ (n x y : Nat) (d : Int), (walk dx dy n x y d).length = n := by
  intro n
  induction n with
  | zero => intro x y d; rfl
  | succ n ih =>
    intro x y d
    rw [walk_succ, List.length_cons]
    split
    · rw [ih]
    · rw [ih]

theorem column_length (x0 y n : Nat) : (column x0 y n).length = n := by
  unfold column
  rw [List.length_map, List.length_range']

/-- The number of written coordinates: one per row in the vertical case, one
per column otherwise. -/
theorem segment_path_length (x0 y0 x1 y1 : Nat) :
    (segment_path x0 y0 x1 y1).length
      = if x0 = x1 then max y0 y1 - min y0 y1 + 1 else max x0 x1 - min x0 x1 + 1 := by
  unfold segment_path
  split
  · rw [column_length]
  · unfold segment_states
    rw [List.length_map, walk_length]

/-- C11, termination and step bound.  Every valid call, on a buffer whose
dimensions are values of `unsigned` (the type of the coordinates), terminates:
the loop it runs ends before the fuel of the model does, the call either
returning or being stopped by the bounds assertion of a write.  The number of
pixel writes it makes is at most `max(|x1 - x0|, |y1 - y0|) + 1`.  On a buffer
of at most `2^30` pixels the call returns. -/
theorem termination_and_step_bound (target : hdr_image C) (x0 y0 x1 y1 : Nat) (color : C)
    (hv : valid_call target x0 y0 x1 y1) (hu : unsigned_dimensions target) :
    (rasterize_line_segment target x0 y0 x1 y1 color).status ≠ Status.out_of_fuel ∧
    (rasterize_line_segment target x0 y0 x1 y1 color).plotted.length
      ≤ max (Int.natAbs ((x1 : Int) - (x0 : Int))) (Int.natAbs ((y1 : Int) - (y0 : Int))) + 1 ∧
    (exact_range target →
      (rasterize_line_segment target x0 y0 x1 y1 color).status = Status.returned) := by
  refine ⟨?_, ?_, ?_⟩
  · by_cases hx : x0 = x1
    · rw [rasterize_vertical_exact target x0 y0 x1 y1 color hv hu hx]
      exact returned_ne_out_of_fuel
    · obtain ⟨he, h0, h1⟩ := hv
      have b0 := (is_xy_iff _ _ _).1 h0
      have b1 := (is_xy_iff _ _ _).1 h1
      have hxb : max x0 x1 < 4294967295 := Nat.lt_of_lt_of_le (max_lt b0.1 b1.1) hu.1
      have hfuel : max x0 x1 - min x0 x1 + 1 < loop_fuel := by
        unfold loop_fuel
        clear he h0 h1 b0 b1 hu hx
        omega
      have hsum : min x0 x1 + (max x0 x1 - min x0 x1 + 1) = max x0 x1 + 1 := by
        clear he h0 h1 b0 b1 hu hx hfuel hxb
        omega
      unfold rasterize_line_segment
      rw [he, h0, h1]
      simp only [Bool.false_eq_true, if_false, Bool.not_true]
      unfold rasterize_body
      simp only [ite_gt_min, ite_gt_max]
      rw [if_neg hx]
      exact (general_loop_bound (max x0 x1) _ _ color hxb _ _ _ _ _ target hfuel hsum).1
  · by_cases hx : x0 = x1
    · rw [rasterize_vertical_exact target x0 y0 x1 y1 color hv hu hx]
      simp only
      rw [column_length]
      clear hv hu
      omega
    · obtain ⟨he, h0, h1⟩ := hv
      have b0 := (is_xy_iff _ _ _).1 h0
      have b1 := (is_xy_iff _ _ _).1 h1
      have hxb : max x0 x1 < 4294967295 := Nat.lt_of_lt_of_le (max_lt b0.1 b1.1) hu.1
      have hfuel : max x0 x1 - min x0 x1 + 1 < loop_fuel := by
        unfold loop_fuel
        clear he h0 h1 b0 b1 hu hx
        omega
      have hsum : min x0 x1 + (max x0 x1 - min x0 x1 + 1) = max x0 x1 + 1 := by
        clear he h0 h1 b0 b1 hu hx hfuel hxb
        omega
      have hn : max x0 x1 - min x0 x1 + 1
          ≤ max (Int.natAbs ((x1 : Int) - (x0 : Int))) (Int.natAbs ((y1 : Int) - (y0 : Int))) + 1 := by
        clear he h0 h1 b0 b1 hu hx hfuel hxb hsum
        omega
      unfold rasterize_line_segment
      rw [he, h0, h1]
      simp only [Bool.false_eq_true, if_false, Bool.not_true]
      unfold rasterize_body
      simp only [ite_gt_min, ite_gt_max]
      rw [if_neg hx]
      exact Nat.le_trans
        (general_loop_bound (max x0 x1) _ _ color hxb _ _ _ _ _ target hfuel hsum).2 hn
  · intro hr
    rw [rasterize_line_segment_exact target x0 y0 x1 y1 color hv hr]

/-- C11 at a concrete input: the call from `(5,5)` to `(7,10)` on an 11x11
buffer. -/
theorem termination_and_step_bound_witness :
    valid_call (filled 11 11 (0 : Nat)) 5 5 7 10 ∧
    unsigned_dimensions (filled 11 11 (0 : Nat)) ∧
    (rasterize_line_segment (filled 11 11 (0 : Nat)) 5 5 7 10 1).status ≠ Status.out_of_fuel ∧
    (rasterize_line_segment (filled 11 11 (0 : Nat)) 5 5 7 10 1).plotted.length
      ≤ max (Int.natAbs (((7 : Nat) : Int) - ((5 : Nat) : Int)))
          (Int.natAbs (((10 : Nat) : Int) - ((5 : Nat) : Int))) + 1 ∧
    (exact_range (filled 11 11 (0 : Nat)) →
      (rasterize_line_segment (filled 11 11 (0 : Nat)) 5 5 7 10 1).status = Status.returned) :=
  ⟨by decide, by decide,
    termination_and_step_bound (filled 11 11 (0 : Nat)) 5 5 7 10 1 (by decide) (by decide)⟩

theorem hdr_image_eq (a b : hdr_image C) (hw : a.width = b.width) (hh : a.height = b.height)
    (hp : ∀ x y, a.pixels x y = b.pixels x y) : a = b := by
  obtain ⟨wa, ha, pa⟩ := a
  obtain ⟨wb, hb, pb⟩ := b
  simp only at hw hh hp
  subst hw hh
  have : pa = pb := funext fun x => funext (hp x)
  rw [this]

/-- Writing a sequence of coordinates with one colour and then the same
sequence with another leaves what writing it with the second colour alone
leaves. -/
theorem draw_overwrite (c1 c2 : C) (target : hdr_image C) (pts : List (Nat × Nat)) :
    draw c2 (draw c1 target pts) pts = draw c2 target pts := by
  apply hdr_image_eq
  · rw [draw_width, draw_width, draw_width]
  · rw [draw_height, draw_height, draw_height]
  · intro a b
    by_cases h : (a, b) ∈ pts
    · rw [draw_pixels_of_mem c2 pts _ a b h, draw_pixels_of_mem c2 pts _ a b h]
    · rw [draw_pixels_of_not_mem c2 pts _ a b h, draw_pixels_of_not_mem c2 pts _ a b h,
        draw_pixels_of_not_mem c1 pts _ a b h]

theorem valid_call_draw (target : hdr_image C) (x0 y0 x1 y1 : Nat) (c : C)
    (pts : List (Nat × Nat)) (hv : valid_call target x0 y0 x1 y1) :
    valid_call (draw c target pts) x0 y0 x1 y1 := by
  unfold valid_call hdr_image.is_empty hdr_image.is_xy at hv ⊢
  rw [draw_width, draw_height]
  exact hv

theorem exact_range_draw (target : hdr_image C) (c : C) (pts : List (Nat × Nat))
    (hr : exact_range target) : exact_range (draw c target pts) := by
  unfold exact_range at hr ⊢
  rw [draw_width, draw_height]
  exact hr

theorem run_eq (r s : Run C) (ht : r.target = s.target) (hs : r.status = s.status)
    (hp : r.plotted = s.plotted) (hd : r.decisions = s.decisions) : r = s := by
  obtain ⟨rt, rs, rp, rd⟩ := r
  obtain ⟨st, ss, sp, sd⟩ := s
  simp only at ht hs hp hd
  rw [ht, hs, hp, hd]

/-- Drawing a segment on the buffer an earlier call with the same endpoints
left has the outcome of drawing it on the original buffer: the earlier colour
is overwritten. -/
theorem rasterize_line_segment_redraw (target : hdr_image C) (x0 y0 x1 y1 : Nat) (c1 c2 : C) :
    rasterize_line_segment (rasterize_line_segment target x0 y0 x1 y1 c1).target
        x0 y0 x1 y1 c2
      = rasterize_line_segment target x0 y0 x1 y1 c2 := by
  have ht1 := rasterize_line_segment_target target x0 y0 x1 y1 c1
  have hw : (rasterize_line_segment target x0 y0 x1 y1 c1).target.width = target.width := by
    rw [ht1, draw_width]
  have hh : (rasterize_line_segment target x0 y0 x1 y1 c1).target.height = target.height := by
    rw [ht1, draw_height]
  obtain ⟨s1, s2, s3⟩ := rasterize_line_segment_shape
    (rasterize_line_segment target x0 y0 x1 y1 c1).target target x0 y0 x1 y1 c2 c2 hw hh
  obtain ⟨_, p2, _⟩ := rasterize_line_segment_shape target target x0 y0 x1 y1 c1 c2 rfl rfl
  apply run_eq _ _ _ s1 s2 s3
  rw [rasterize_line_segment_target _ x0 y0 x1 y1 c2, s2,
    rasterize_line_segment_target target x0 y0 x1 y1 c2]
  rw [ht1, p2, draw_overwrite]

/-- C12, opaque overwrite.  For every call and every two colours `c1`, `c2`,
drawing the segment with `c1` and then drawing the same segment with `c2` on
the resulting buffer has the outcome of drawing it once with `c2` on the
original buffer: the same final buffer, the same writes and the same way of
ending.  The rasterizer never reads a pixel, so what a written pixel held
before has no influence on what it holds after. -/
theorem opaque_overwrite (target : hdr_image C) (x0 y0 x1 y1 : Nat) (c1 c2 : C) :
    rasterize_line_segment (rasterize_line_segment target x0 y0 x1 y1 c1).target
        x0 y0 x1 y1 c2
      = rasterize_line_segment target x0 y0 x1 y1 c2 :=
  rasterize_line_segment_redraw target x0 y0 x1 y1 c1 c2

/-- C13, dimensions preserved.  After every call the buffer has the width and
the height it had before, hence the same emptiness and the same valid
coordinates: the writes `pixel(x, y, color)` are the only changes. -/
theorem dimensions_preserved (target : hdr_image C) (x0 y0 x1 y1 : Nat) (color : C) :
    (rasterize_line_segment target x0 y0 x1 y1 color).target.width = target.width ∧
    (rasterize_line_segment target x0 y0 x1 y1 color).target.height = target.height ∧
    (rasterize_line_segment target x0 y0 x1 y1 color).target.is_empty = target.is_empty ∧
    (∀ a b : Nat, (rasterize_line_segment target x0 y0 x1 y1 color).target.is_xy a b
      = target.is_xy a b) ∧
    (rasterize_line_segment target x0 y0 x1 y1 color).target
      = draw color target (rasterize_line_segment target x0 y0 x1 y1 color).plotted := by
  have h := rasterize_line_segment_target target x0 y0 x1 y1 color
  have hw : (rasterize_line_segment target x0 y0 x1 y1 color).target.width = target.width := by
    rw [h, draw_width]
  have hh : (rasterize_line_segment target x0 y0 x1 y1 color).target.height = target.height := by
    rw [h, draw_height]
  refine ⟨hw, hh, ?_, ?_, h⟩
  · unfold hdr_image.is_empty
    rw [hw, hh]
  · intro a b
    unfold hdr_image.is_xy
    rw [hw, hh]

/-- C15, the code at a failing input.  For the call from `(5,5)` to `(6,10)`
the dominant axis is `y`, and the claim gives one pixel in each of the rows
`5, ..., 10`, six pixels in all.  On an 11x11 buffer the call returns after
writing `(5,5)` and `(6,6)` only: two pixels, none of them in the rows
`7, ..., 10`. -/
theorem dominant_axis_failing_input :
    (rasterize_line_segment (filled 11 11 (0 : Nat)) 5 5 6 10 1).status = Status.returned ∧
    (rasterize_line_segment (filled 11 11 (0 : Nat)) 5 5 6 10 1).plotted = [(5, 5), (6, 6)] ∧
    (rasterize_line_segment (filled 11 11 (0 : Nat)) 5 5 6 10 1).plotted.length
      ≠ max (Int.natAbs ((6 : Int) - 5)) (Int.natAbs ((10 : Int) - 5)) + 1 ∧
    ∀ p ∈ (rasterize_line_segment (filled 11 11 (0 : Nat)) 5 5 6 10 1).plotted, p.2 < 7 := by
  decide

/-- C16, the code at a failing input.  On an 11x11 buffer the first pixel
written by the call from `(5,5)` to `(10,0)` is `(5,0)`, which is neither of
the two endpoints, and the row then grows, `(6,1)` being written next. -/
theorem normalisation_failing_input :
    (rasterize_line_segment (filled 11 11 (0 : Nat)) 5 5 10 0 1).plotted.head? = some (5, 0) ∧
    (5, 0) ≠ ((5, 5) : Nat × Nat) ∧ (5, 0) ≠ ((10, 0) : Nat × Nat) ∧
    (rasterize_line_segment (filled 11 11 (0 : Nat)) 5 5 10 0 1).plotted.tail.head?
      = some (6, 1) := by
  decide

/-- C17, the code at a failing input.  On an 11x11 buffer the call from `(5,5)`
to `(8,6)` writes `(5,5), (6,6), (7,6), (8,6)`.  The written pixel `(6,6)` has
`2 * |(x1 - x0) * (y - y0) - (y1 - y0) * (x - x0)| = 4`, more than
`max(|x1 - x0|, |y1 - y0|) = 3`, so it is further than half a pixel from the
ideal line.  The accumulator values tested are `-1, 1, 0, -1`; the value `0` is
tested when the ideal line passes through the centre of the next pixel
`(8,6)`, not through the boundary between two pixels. -/
theorem faithful_rendering_failing_input :
    (rasterize_line_segment (filled 11 11 (0 : Nat)) 5 5 8 6 1).plotted
      = [(5, 5), (6, 6), (7, 6), (8, 6)] ∧
    ¬ (2 * Int.natAbs (((8 : Int) - 5) * ((6 : Int) - 5) - ((6 : Int) - 5) * ((6 : Int) - 5))
        ≤ max (Int.natAbs ((8 : Int) - 5)) (Int.natAbs ((6 : Int) - 5))) ∧
    (rasterize_line_segment (filled 11 11 (0 : Nat)) 5 5 8 6 1).decisions = [-1, 1, 0, -1] ∧
    implicit_line 5 5 8 6 8 6 = 0 := by
  decide

/-- Consecutive states of a walk are related by one iteration of the loop. -/
theorem walk_chain (dx dy : Int) :
    ∀ (n x y : Nat) (d : Int),
      List.Chain' (loop_step dx dy) ((walk dx dy n x y d).map state_pair) := by
  intro n
  induction n with
  | zero => intro x y d; exact List.chain'_nil
  | succ n ih =>
    intro x y d
    rw [walk_succ, List.map_cons, List.chain'_cons']
    constructor
    · intro t ht
      cases n with
      | zero =>
        split at ht <;> simp [walk] at ht
      | succ m =>
        by_cases hneg : d < 0
        · rw [if_pos hneg, walk_succ, List.map_cons, List.head?_cons] at ht
          have e : t = state_pair (x + 1, y + 1, d + (dx + dy)) := by
            simpa using ht.symm
          rw [e]
          exact ⟨rfl, Or.inl ⟨hneg, rfl, rfl⟩⟩
        · rw [if_neg hneg, walk_succ, List.map_cons, List.head?_cons] at ht
          have e : t = state_pair (x + 1, y, d + dy) := by
            simpa using ht.symm
          rw [e]
          exact ⟨rfl, Or.inr ⟨hneg, rfl, rfl⟩⟩
    · split
      · exact ih _ _ _
      · exact ih _ _ _

/-- The writes and the accumulator values of the general case, paired. -/
theorem segment_zip (x0 y0 x1 y1 : Nat) (hx : x0 ≠ x1) :
    (segment_path x0 y0 x1 y1).zip (segment_decisions x0 y0 x1 y1)
      = (segment_states x0 y0 x1 y1).map state_pair := by
  unfold segment_path segment_decisions
  rw [if_neg hx, if_neg hx, List.zip_map']
  rfl

/-- The three leading assertions pass exactly when the buffer is non-empty and
the larger coordinate of each pair is inside it. -/
theorem rasterize_line_segment_guard (target : hdr_image C) (x0 y0 x1 y1 : Nat) (color : C) :
    rasterize_line_segment target x0 y0 x1 y1 color
      = if target.is_empty = false ∧ max x0 x1 < target.width ∧ max y0 y1 < target.height
        then rasterize_body target x0 y0 x1 y1 color
        else ⟨target, Status.violation, [], []⟩ := by
  unfold rasterize_line_segment hdr_image.is_xy
  by_cases he : target.is_empty = true
  · rw [if_pos he, if_neg]
    rw [he]
    simp
  · have he2 : target.is_empty = false := by
      cases h : target.is_empty
      · rfl
      · exact absurd h he
    rw [if_neg he]
    by_cases h1 : x0 < target.width <;> by_cases h2 : y0 < target.height <;>
      by_cases h3 : x1 < target.width <;> by_cases h4 : y1 < target.height <;>
      simp [he2, h1, h2, h3, h4, max_lt_iff]

/-- The body acts on the normalised endpoints. -/
theorem rasterize_body_normal (target : hdr_image C) (x0 y0 x1 y1 : Nat) (color : C) :
    rasterize_body target x0 y0 x1 y1 color
      = rasterize_body target (min x0 x1) (min y0 y1) (max x0 x1) (max y0 y1) color := by
  have hxle : min x0 x1 ≤ max x0 x1 := min_le_max
  have hyle : min y0 y1 ≤ max y0 y1 := min_le_max
  unfold rasterize_body
  simp only [ite_gt_min, ite_gt_max]
  rw [Nat.min_eq_left hyle, Nat.max_eq_right hyle, Nat.min_eq_left hxle, Nat.max_eq_right hxle]
  by_cases hx : x0 = x1
  · subst hx
    rw [if_pos rfl, Nat.min_self, Nat.max_self, if_pos rfl]
  · have hne : ¬ min x0 x1 = max x0 x1 := by
      clear hxle hyle
      omega
    rw [if_neg hx, if_neg hne]

/-- The outcome of a call is the outcome of the call on the normalised
endpoints. -/
theorem rasterize_line_segment_normal (target : hdr_image C) (x0 y0 x1 y1 : Nat) (color : C) :
    rasterize_line_segment target x0 y0 x1 y1 color
      = rasterize_line_segment target (min x0 x1) (min y0 y1) (max x0 x1) (max y0 y1)
          color := by
  have hxle : min x0 x1 ≤ max x0 x1 := min_le_max
  have hyle : min y0 y1 ≤ max y0 y1 := min_le_max
  rw [rasterize_line_segment_guard target x0 y0 x1 y1,
    rasterize_line_segment_guard target (min x0 x1) (min y0 y1) (max x0 x1) (max y0 y1),
    Nat.max_eq_right hxle, Nat.max_eq_right hyle, ← rasterize_body_normal]

/-- C20, bounding-box dependence.  For every buffer, colour and coordinates,
the call from `(x0,y0)` to `(x1,y1)` has the same outcome, in particular the
same final buffer, as the call from `(x0,y1)` to `(x1,y0)`; more generally the
outcome is the same for any two calls whose endpoints have the same
`min` and `max` of the `x` coordinates and of the `y` coordinates. -/
theorem bounding_box_dependence (target : hdr_image C) (x0 y0 x1 y1 : Nat) (color : C) :
    rasterize_line_segment target x0 y0 x1 y1 color
      = rasterize_line_segment target x0 y1 x1 y0 color ∧
    ∀ a0 b0 a1 b1 : Nat,
      min a0 a1 = min x0 x1 → max a0 a1 = max x0 x1 →
      min b0 b1 = min y0 y1 → max b0 b1 = max y0 y1 →
      rasterize_line_segment target a0 b0 a1 b1 color
        = rasterize_line_segment target x0 y0 x1 y1 color := by
  have general : ∀ a0 b0 a1 b1 : Nat,
      min a0 a1 = min x0 x1 → max a0 a1 = max x0 x1 →
      min b0 b1 = min y0 y1 → max b0 b1 = max y0 y1 →
      rasterize_line_segment target a0 b0 a1 b1 color
        = rasterize_line_segment target x0 y0 x1 y1 color := by
    intro a0 b0 a1 b1 h1 h2 h3 h4
    rw [rasterize_line_segment_normal target a0 b0 a1 b1,
      rasterize_line_segment_normal target x0 y0 x1 y1, h1, h2, h3, h4]
  exact ⟨(general x0 y1 x1 y0 rfl rfl (Nat.min_comm y1 y0) (Nat.max_comm y1 y0)).symm, general⟩

/-! ## The batch helper -/

/-- Every call of the rasterizer made by the batch helper satisfies the
preconditions, is in the exact range, and returns. -/
theorem case_call_valid (silver red : C) (end_x end_y : Nat) (hx : end_x ≤ 10)
    (hy : end_y ≤ 10) :
    valid_call (filled 11 11 silver) 5 5 end_x end_y ∧ exact_range (filled 11 11 silver) ∧
    (rasterize_line_segment (filled 11 11 silver) 5 5 end_x end_y red).status
      = Status.returned := by
  have hv : valid_call (filled 11 11 silver) 5 5 end_x end_y :=
    ⟨rfl, rfl, (is_xy_iff _ _ _).2 ⟨Nat.lt_succ_of_le hx, Nat.lt_succ_of_le hy⟩⟩
  have hr : exact_range (filled 11 11 silver) := by
    show 11 * 11 ≤ 1073741824
    decide
  refine ⟨hv, hr, ?_⟩
  rw [rasterize_line_segment_exact _ _ _ _ _ _ hv hr]

theorem stops_at_failure_nil : stops_at_failure [] := by
  intro init o rest h _
  cases init <;> simp at h

theorem stops_at_failure_single (o : Bool) : stops_at_failure [o] := by
  intro init o2 rest h _
  cases init with
  | nil =>
    simp only [List.nil_append, List.cons.injEq] at h
    exact h.2.symm
  | cons a init => simp at h

theorem stops_at_failure_cons_true (os : List Bool) (h : stops_at_failure os) :
    stops_at_failure (true :: os) := by
  intro init o rest he ho
  cases init with
  | nil =>
    simp only [List.nil_append, List.cons.injEq] at he
    rw [ho] at he
    exact absurd he.1 (by decide)
  | cons a init =>
    simp only [List.cons_append, List.cons.injEq] at he
    exact h init o rest he.2 ho

theorem stops_at_failure_append (l1 l2 : List Bool) (h1 : ∀ o ∈ l1, o = true)
    (h2 : stops_at_failure l2) : stops_at_failure (l1 ++ l2) := by
  induction l1 with
  | nil => exact h2
  | cons a l1 ih =>
    have ha : a = true := h1 a (List.mem_cons_self _ _)
    rw [ha, List.cons_append]
    exact stops_at_failure_cons_true _ (ih (fun o ho => h1 o (List.mem_cons_of_mem _ ho)))

/-- One iteration of the inner loop, for a case inside the 11x11 grid. -/
theorem cases_rows_cons {F : Type} (write_png : F → hdr_image C → String → Bool × F)
    (silver red : C) (stem : String) (end_x end_y : Nat) (rest : List Nat) (files : F)
    (hx : end_x ≤ 10) (hy : end_y ≤ 10) :
    cases_rows write_png silver red stem end_x (end_y :: rest) files
      = if (write_png files (case_image silver red end_x end_y)
              (case_filename stem end_x end_y)).1 = true then
          ⟨(cases_rows write_png silver red stem end_x rest
              (write_png files (case_image silver red end_x end_y)
                (case_filename stem end_x end_y)).2).result,
           (case_image silver red end_x end_y, case_filename stem end_x end_y, true) ::
             (cases_rows write_png silver red stem end_x rest
              (write_png files (case_image silver red end_x end_y)
                (case_filename stem end_x end_y)).2).requests,
           (cases_rows write_png silver red stem end_x rest
              (write_png files (case_image silver red end_x end_y)
                (case_filename stem end_x end_y)).2).files⟩
        else
          ⟨some false,
           [(case_image silver red end_x end_y, case_filename stem end_x end_y, false)],
           (write_png files (case_image silver red end_x end_y)
              (case_filename stem end_x end_y)).2⟩ := by
  have hs := (case_call_valid silver red end_x end_y hx hy).2.2
  simp only [cases_rows]
  rw [if_pos hs]
  rfl

/-- The inner loop, for an `end_x` and values of `end_y` inside the grid: the
value it gives is `true` exactly when every recorded write succeeded; the
requests follow the expected cases in order, all of them when the value is
`true`; a failed write is the last one; and when `write_png` never fails every
expected request is made. -/
theorem cases_rows_spec {F : Type} (write_png : F → hdr_image C → String → Bool × F)
    (silver red : C) (stem : String) (end_x : Nat) (hx : end_x ≤ 10) :
    ∀ (ys : List Nat) (files : F), (∀ y ∈ ys, y ≤ 10) →
      (cases_rows write_png silver red stem end_x ys files).result
        = some ((cases_rows write_png silver red stem end_x ys files).requests.all request_ok) ∧
      ((cases_rows write_png silver red stem end_x ys files).requests.map request_key
        <+: rows_expected silver red stem end_x ys) ∧
      ((cases_rows write_png silver red stem end_x ys files).result = some true →
        (cases_rows write_png silver red stem end_x ys files).requests.map request_key
          = rows_expected silver red stem end_x ys) ∧
      stops_at_failure
        ((cases_rows write_png silver red stem end_x ys files).requests.map request_ok) ∧
      ((∀ fs img name, (write_png fs img name).1 = true) →
        (cases_rows write_png silver red stem end_x ys files).requests
          = (rows_expected silver red stem end_x ys).map (fun e => (e.1, e.2, true))) := by
  intro ys
  induction ys with
  | nil =>
    intro files _
    refine ⟨rfl, List.prefix_refl _, fun _ => rfl, stops_at_failure_nil, fun _ => rfl⟩
  | cons y ys ih =>
    intro files hys
    have hy : y ≤ 10 := hys y (List.mem_cons_self _ _)
    have hys2 : ∀ z ∈ ys, z ≤ 10 := fun z hz => hys z (List.mem_cons_of_mem _ hz)
    rw [cases_rows_cons write_png silver red stem end_x y ys files hx hy]
    by_cases hw : (write_png files (case_image silver red end_x y)
        (case_filename stem end_x y)).1 = true
    · rw [if_pos hw]
      obtain ⟨h1, h2, h3, h4, h5⟩ :=
        ih (write_png files (case_image silver red end_x y) (case_filename stem end_x y)).2 hys2
      simp only
      refine ⟨?_, ?_, ?_, ?_, ?_⟩
      · rw [h1, List.all_cons]
        rfl
      · rw [List.map_cons]
        exact (List.prefix_cons_inj _).2 h2
      · intro hres
        rw [List.map_cons, h3 hres]
        rfl
      · rw [List.map_cons]
        exact stops_at_failure_cons_true _ h4
      · intro hok
        rw [h5 hok]
        rfl
    · rw [if_neg hw]
      simp only
      refine ⟨rfl, ?_, ?_, ?_, ?_⟩
      · exact (List.prefix_cons_inj _).2 List.nil_prefix
      · intro hres
        exact absurd hres (by decide)
      · exact stops_at_failure_single _
      · intro hok
        exact absurd (hok _ _ _) hw

theorem columns_expected_cons (silver red : C) (stem : String) (end_x : Nat)
    (xs : List Nat) :
    columns_expected silver red stem (end_x :: xs)
      = rows_expected silver red stem end_x (List.range 11)
        ++ columns_expected silver red stem xs := rfl

theorem range_11_le : ∀ y ∈ List.range 11, y ≤ 10 := by
  intro y hy
  exact Nat.le_of_lt_succ (List.mem_range.mp hy)

/-- The outer loop, for values of `end_x` inside the grid; the statements are
those of `cases_rows_spec`. -/
theorem cases_columns_spec {F : Type} (write_png : F → hdr_image C → String → Bool × F)
    (silver red : C) (stem : String) :
    ∀ (xs : List Nat) (files : F), (∀ x ∈ xs, x ≤ 10) →
      (cases_columns write_png silver red stem xs files).result
        = some ((cases_columns write_png silver red stem xs files).requests.all request_ok) ∧
      ((cases_columns write_png silver red stem xs files).requests.map request_key
        <+: columns_expected silver red stem xs) ∧
      ((cases_columns write_png silver red stem xs files).result = some true →
        (cases_columns write_png silver red stem xs files).requests.map request_key
          = columns_expected silver red stem xs) ∧
      stops_at_failure
        ((cases_columns write_png silver red stem xs files).requests.map request_ok) ∧
      ((∀ fs img name, (write_png fs img name).1 = true) →
        (cases_columns write_png silver red stem xs files).requests
          = (columns_expected silver red stem xs).map (fun e => (e.1, e.2, true))) := by
  intro xs
  induction xs with
  | nil =>
    intro files _
    refine ⟨rfl, List.prefix_refl _, fun _ => rfl, stops_at_failure_nil, fun _ => rfl⟩
  | cons x xs ih =>
    intro files hxs
    have hx : x ≤ 10 := hxs x (List.mem_cons_self _ _)
    have hxs2 : ∀ z ∈ xs, z ≤ 10 := fun z hz => hxs z (List.mem_cons_of_mem _ hz)
    obtain ⟨r1, r2, r3, r4, r5⟩ :=
      cases_rows_spec write_png silver red stem x hx (List.range 11) files range_11_le
    simp only [cases_columns]
    rw [columns_expected_cons]
    by_cases hres : (cases_rows write_png silver red stem x (List.range 11) files).result
        = some true
    · rw [if_pos hres]
      obtain ⟨h1, h2, h3, h4, h5⟩ :=
        ih (cases_rows write_png silver red stem x (List.range 11) files).files hxs2
      have hall : (cases_rows write_png silver red stem x (List.range 11) files).requests.all
          request_ok = true := by
        rw [r1] at hres
        exact (Option.some.inj hres)
      simp only
      refine ⟨?_, ?_, ?_, ?_, ?_⟩
      · rw [h1, List.all_append, hall, Bool.true_and]
      · rw [List.map_append, r3 hres]
        exact (List.prefix_append_right_inj _).2 h2
      · intro hres2
        rw [List.map_append, r3 hres, h3 hres2]
      · rw [List.map_append]
        apply stops_at_failure_append _ _ _ h4
        intro o ho
        obtain ⟨q, hq, rfl⟩ := List.mem_map.mp ho
        exact List.all_eq_true.mp hall q hq
      · intro hok
        rw [r5 hok, h5 hok, List.map_append]
    · rw [if_neg hres]
      refine ⟨r1, ?_, ?_, r4, ?_⟩
      · exact List.IsPrefix.trans r2 (List.prefix_append _ _)
      · intro h
        exact absurd h hres
      · intro hok
        exfalso
        apply hres
        rw [r1, r5 hok]
        have hall : ((rows_expected silver red stem x (List.range 11)).map
            (fun e => (e.1, e.2, true))).all request_ok = true := by
          apply List.all_eq_true.mpr
          intro q hq
          obtain ⟨e, _, rfl⟩ := List.mem_map.mp hq
          rfl
        rw [hall]

theorem write_cases_spec_nil {F : Type}
    (write_png : F → hdr_image C → String → Bool × F) (files : F) :
    write_cases_spec write_png [] files = ⟨some true, [], files⟩ := rfl

theorem write_cases_spec_cons {F : Type}
    (write_png : F → hdr_image C → String → Bool × F) (e : hdr_image C × String)
    (rest : List (hdr_image C × String)) (files : F) :
    write_cases_spec write_png (e :: rest) files
      = if (write_png files e.1 e.2).1 = true then
          ⟨(write_cases_spec write_png rest (write_png files e.1 e.2).2).result,
           (e.1, e.2, true) ::
             (write_cases_spec write_png rest (write_png files e.1 e.2).2).requests,
           (write_cases_spec write_png rest (write_png files e.1 e.2).2).files⟩
        else ⟨some false, [(e.1, e.2, false)], (write_png files e.1 e.2).2⟩ := rfl

/-- The stated behaviour on two lists of cases in a row: the second list is
written, from the state of the files the first left, when no write of the
first failed. -/
theorem write_cases_spec_append {F : Type}
    (write_png : F → hdr_image C → String → Bool × F) (l2 : List (hdr_image C × String)) :
    ∀ (l1 : List (hdr_image C × String)) (files : F),
      write_cases_spec write_png (l1 ++ l2) files
        = if (write_cases_spec write_png l1 files).result = some true then
            ⟨(write_cases_spec write_png l2
                (write_cases_spec write_png l1 files).files).result,
             (write_cases_spec write_png l1 files).requests ++
               (write_cases_spec write_png l2
                (write_cases_spec write_png l1 files).files).requests,
             (write_cases_spec write_png l2
                (write_cases_spec write_png l1 files).files).files⟩
          else write_cases_spec write_png l1 files := by
  intro l1
  induction l1 with
  | nil =>
    intro files
    rw [List.nil_append, write_cases_spec_nil, if_pos rfl]
    rfl
  | cons e l1 ih =>
    intro files
    rw [List.cons_append, write_cases_spec_cons, write_cases_spec_cons]
    by_cases hw : (write_png files e.1 e.2).1 = true
    · rw [if_pos hw, if_pos hw, ih]
      simp only []
      by_cases hr : (write_cases_spec write_png l1 (write_png files e.1 e.2).2).result
          = some true
      · simp only [hr, if_true]
        rfl
      · simp only [hr, if_false]
    · rw [if_neg hw, if_neg hw, if_neg (by simp)]

/-- The inner loop, for cases inside the grid, is the stated behaviour on the
cases of one `end_x`. -/
theorem cases_rows_refines {F : Type} (write_png : F → hdr_image C → String → Bool × F)
    (silver red : C) (stem : String) (end_x : Nat) (hx : end_x ≤ 10) :
    ∀ (ys : List Nat) (files : F), (∀ y ∈ ys, y ≤ 10) →
      cases_rows write_png silver red stem end_x ys files
        = write_cases_spec write_png (rows_expected silver red stem end_x ys) files := by
  intro ys
  induction ys with
  | nil => intro files _; rfl
  | cons y ys ih =>
    intro files hys
    have hy : y ≤ 10 := hys y (List.mem_cons_self _ _)
    have hys2 : ∀ z ∈ ys, z ≤ 10 := fun z hz => hys z (List.mem_cons_of_mem _ hz)
    rw [cases_rows_cons write_png silver red stem end_x y ys files hx hy, ih _ hys2]
    rfl

/-- The outer loop, for values of `end_x` inside the grid, is the stated
behaviour on the cases of these `end_x`. -/
theorem cases_columns_refines {F : Type} (write_png : F → hdr_image C → String → Bool × F)
    (silver red : C) (stem : String) :
    ∀ (xs : List Nat) (files : F), (∀ x ∈ xs, x ≤ 10) →
      cases_columns write_png silver red stem xs files
        = write_cases_spec write_png (columns_expected silver red stem xs) files := by
  intro xs
  induction xs with
  | nil => intro files _; rfl
  | cons x xs ih =>
    intro files hxs
    have hx : x ≤ 10 := hxs x (List.mem_cons_self _ _)
    have hxs2 : ∀ z ∈ xs, z ≤ 10 := fun z hz => hxs z (List.mem_cons_of_mem _ hz)
    simp only [cases_columns]
    rw [columns_expected_cons, write_cases_spec_append,
      cases_rows_refines write_png silver red stem x hx (List.range 11) files range_11_le,
      ih _ hxs2]

/-- Every request the stated behaviour records carries the value `write_png`
returned for its image and file name, in the state of the files at that
moment. -/
theorem write_cases_spec_flags {F : Type} (write_png : F → hdr_image C → String → Bool × F) :
    ∀ (l : List (hdr_image C × String)) (files : F),
      ∀ q ∈ (write_cases_spec write_png l files).requests,
        ∃ fs : F, (write_png fs q.1 q.2.1).1 = q.2.2 := by
  intro l
  induction l with
  | nil =>
    intro files q hq
    rw [write_cases_spec_nil] at hq
    exact absurd hq (List.not_mem_nil q)
  | cons e l ih =>
    intro files q hq
    rw [write_cases_spec_cons] at hq
    by_cases hw : (write_png files e.1 e.2).1 = true
    · rw [if_pos hw] at hq
      rcases List.mem_cons.mp hq with h | h
      · exact ⟨files, by rw [h]; exact hw⟩
      · exact ih _ q h
    · rw [if_neg hw] at hq
      have h := List.mem_singleton.mp hq
      refine ⟨files, ?_⟩
      rw [h]
      cases hb : (write_png files e.1 e.2).1
      · rfl
      · exact absurd hb hw

/-- C14, batch helper shape.  For every file-name prefix `stem`, every
behaviour `write_png` of the PNG writer and every initial state of the files:
when every write succeeds, `write_line_segment_cases` returns `true` after
exactly the 121 expected requests, one for each `(end_x, end_y)` of
`{0..10} x {0..10}` in `end_x`-major order, the request for `(end_x, end_y)`
naming the file `stem-end_x-end_y.png` and carrying a fresh 11x11 image filled
with `silver` on which the rasterizer was called once, from `(5,5)` to
`(end_x, end_y)` with `red`.  In general the requests made follow the expected
ones in order, the helper returns `true` exactly when every write made
succeeded, a failed write is the last one made (the helper returns `false`
there), and every call of the rasterizer satisfies its preconditions and
returns.  The outcome is the one the specification states: the expected
requests are made in order, each recorded with the value `write_png` returned
for it, up to and including the first for which `write_png` returns `false`,
where the helper returns `false`; in particular, when the first write fails
the helper returns `false` after this one request. -/
theorem batch_helper_shape {F : Type} (write_png : F → hdr_image C → String → Bool × F)
    (silver red : C) (stem : String) (files : F) :
    ((∀ fs img name, (write_png fs img name).1 = true) →
      (write_line_segment_cases write_png silver red stem files).result = some true ∧
      (write_line_segment_cases write_png silver red stem files).requests
        = (columns_expected silver red stem (List.range 11)).map
            (fun e => (e.1, e.2, true))) ∧
    (columns_expected silver red stem (List.range 11)).length = 121 ∧
    (∀ end_x end_y : Nat, end_x ≤ 10 → end_y ≤ 10 →
      (columns_expected silver red stem (List.range 11))[11 * end_x + end_y]?
        = some ((rasterize_line_segment (filled 11 11 silver) 5 5 end_x end_y red).target,
            stem ++ "-" ++ toString end_x ++ "-" ++ toString end_y ++ ".png")) ∧
    ((write_line_segment_cases write_png silver red stem files).requests.map request_key
      <+: columns_expected silver red stem (List.range 11)) ∧
    (write_line_segment_cases write_png silver red stem files).result
      = some ((write_line_segment_cases write_png silver red stem files).requests.all
          request_ok) ∧
    ((write_line_segment_cases write_png silver red stem files).result = some true →
      (write_line_segment_cases write_png silver red stem files).requests.map request_key
        = columns_expected silver red stem (List.range 11)) ∧
    stops_at_failure
      ((write_line_segment_cases write_png silver red stem files).requests.map request_ok) ∧
    (∀ end_x end_y : Nat, end_x ≤ 10 → end_y ≤ 10 →
      valid_call (filled 11 11 silver) 5 5 end_x end_y ∧
      (rasterize_line_segment (filled 11 11 silver) 5 5 end_x end_y red).status
        = Status.returned) ∧
    write_line_segment_cases write_png silver red stem files
      = write_cases_spec write_png (columns_expected silver red stem (List.range 11)) files ∧
    (∀ q ∈ (write_line_segment_cases write_png silver red stem files).requests,
      ∃ fs : F, (write_png fs q.1 q.2.1).1 = q.2.2) ∧
    ((write_png files (case_image silver red 0 0) (case_filename stem 0 0)).1 = false →
      write_line_segment_cases write_png silver red stem files
        = ⟨some false, [(case_image silver red 0 0, case_filename stem 0 0, false)],
            (write_png files (case_image silver red 0 0) (case_filename stem 0 0)).2⟩) := by
  obtain ⟨h1, h2, h3, h4, h5⟩ :=
    cases_columns_spec write_png silver red stem (List.range 11) files range_11_le
  have hspec : write_line_segment_cases write_png silver red stem files
      = write_cases_spec write_png (columns_expected silver red stem (List.range 11)) files :=
    cases_columns_refines write_png silver red stem (List.range 11) files range_11_le
  refine ⟨?_, rfl, ?_, h2, h1, h3, h4, ?_, hspec, ?_, ?_⟩
  · intro hok
    have hreq := h5 hok
    refine ⟨?_, hreq⟩
    unfold write_line_segment_cases at hreq ⊢
    rw [h1, hreq]
    rfl
  · intro end_x end_y hx hy
    interval_cases end_x <;> interval_cases end_y <;> rfl
  · intro end_x end_y hx hy
    have h := case_call_valid silver red end_x end_y hx hy
    exact ⟨h.1, h.2.2⟩
  · rw [hspec]
    exact write_cases_spec_flags write_png _ files
  · intro hfail
    rw [hspec]
    have hcons : columns_expected silver red stem (List.range 11)
        = (case_image silver red 0 0, case_filename stem 0 0)
          :: (columns_expected silver red stem (List.range 11)).tail := rfl
    rw [hcons, write_cases_spec_cons, if_neg (by rw [hfail]; decide)]

/-! ## Closed forms, and further properties of the rasterizer -/

/-- The row offset `j` with `Y * i ≤ X * j < Y * i + X` is the ceiling of
`i * Y / X`. -/
theorem ceil_of_bounds (X Y i j : Nat) (hX : 0 < X) (h1 : Y * i ≤ X * j)
    (h2 : X * j < Y * i + X) :
    ⌈((i * Y : Nat) : ℚ) / ((X : Nat) : ℚ)⌉₊ = j := by
  have hXq : (0 : ℚ) < (X : ℚ) := by exact_mod_cast hX
  apply le_antisymm
  · apply Nat.ceil_le.mpr
    rw [div_le_iff₀ hXq]
    have : i * Y ≤ j * X := by rw [Nat.mul_comm i Y, Nat.mul_comm j X]; exact h1
    exact_mod_cast this
  · cases j with
    | zero => exact Nat.zero_le _
    | succ j =>
      apply Nat.lt_ceil.mpr
      rw [lt_div_iff₀ hXq]
      have h3 : X * (j + 1) = X * j + X := Nat.mul_succ X j
      have h4 : j * X < i * Y := by
        rw [Nat.mul_comm i Y, Nat.mul_comm j X]; omega
      exact_mod_cast h4

/-- For `Y ≤ X` the relation `Y * i ≤ X * j` holds again for the next loop
state, whichever branch is taken. -/
theorem shallow_next (X Y i j : Nat) (d : Int) (hYX : Y ≤ X)
    (hd : d = (X : Int) * j - (Y : Int) * (i + 1)) (hlow : Y * i ≤ X * j) :
    (d < 0 → Y * (i + 1) ≤ X * (j + 1)) ∧ (¬ d < 0 → Y * (i + 1) ≤ X * j) := by
  have cXj : ((X * j : Nat) : Int) = (X : Int) * j := by push_cast; ring
  have cYi : ((Y * (i + 1) : Nat) : Int) = (Y : Int) * (i + 1) := by push_cast; ring
  rw [← cXj, ← cYi] at hd
  have e1 : Y * (i + 1) = Y * i + Y := Nat.mul_succ Y i
  have e2 : X * (j + 1) = X * j + X := Nat.mul_succ X j
  rw [e2]
  clear cXj cYi e2
  generalize X * j = a at *
  generalize Y * (i + 1) = b at *
  generalize Y * i = c at *
  constructor
  · intro _; omega
  · intro _; omega

/-- For `0 < X` and `Y ≤ X` the walk writes, in the column `xa + k`, the row
`ya + ⌈k * Y / X⌉`. -/
theorem walk_shallow (xa ya X Y : Nat) (hX : 0 < X) (hYX : Y ≤ X) :
    ∀ (n i j : Nat) (d : Int), i + n = X + 1 →
      d = (X : Int) * j - (Y : Int) * (i + 1) → X * j < Y * i + X → Y * i ≤ X * j →
      (walk X (-Y) n (xa + i) (ya + j) d).map state_pixel
        = (List.range' i n).map
            (fun k => (xa + k, ya + ⌈((k * Y : Nat) : ℚ) / ((X : Nat) : ℚ)⌉₊)) := by
  intro n
  induction n with
  | zero => intro i j d _ _ _ _; rfl
  | succ n ih =>
    intro i j d hi hd hinv hlow
    have hiX : i ≤ X := by omega
    have hin : i + 1 + n = X + 1 := by omega
    obtain ⟨_, hs1, hs2⟩ := loop_state_next X Y i j d hiX hd hinv
    obtain ⟨hl1, hl2⟩ := shallow_next X Y i j d hYX hd hlow
    have hc := ceil_of_bounds X Y i j hX hlow hinv
    rw [walk_succ, List.map_cons, List.range'_succ, List.map_cons]
    have hhead : state_pixel (xa + i, ya + j, d)
        = (xa + i, ya + ⌈((i * Y : Nat) : ℚ) / ((X : Nat) : ℚ)⌉₊) := by
      rw [hc]; rfl
    rw [hhead]
    congr 1
    by_cases hneg : d < 0
    · rw [if_pos hneg]
      exact ih (i + 1) (j + 1) _ hin (by rw [hd]; push_cast; ring) (hs1 hneg) (hl1 hneg)
    · rw [if_neg hneg]
      exact ih (i + 1) j _ hin (by rw [hd]; push_cast; ring) hs2 (hl2 hneg)

/-- With `X < Y` the accumulator `X * i - Y * (i + 1)` is negative. -/
theorem steep_negative (X Y i : Nat) (h : X < Y) :
    (X : Int) * i - (Y : Int) * (i + 1) < 0 := by
  have h1 : X * i ≤ Y * i := Nat.mul_le_mul_right i (Nat.le_of_lt h)
  have h2 : Y * (i + 1) = Y * i + Y := Nat.mul_succ Y i
  have h3 : X * i < Y * (i + 1) := by omega
  have h4 : ((X * i : Nat) : Int) < ((Y * (i + 1) : Nat) : Int) := Int.ofNat_lt.mpr h3
  push_cast at h4
  linarith

/-- With `X < Y` every step of the walk advances the row: the walk from
`(xa + i, ya + i)` with accumulator `X * i - Y * (i + 1)` runs along the
diagonal. -/
theorem walk_steep (xa ya X Y : Nat) (hXY : X < Y) :
    ∀ (n i : Nat),
      walk X (-Y) n (xa + i) (ya + i) ((X : Int) * i - (Y : Int) * (i + 1))
        = (List.range' i n).map
            (fun k => (xa + k, ya + k, (X : Int) * k - (Y : Int) * (k + 1))) := by
  intro n
  induction n with
  | zero => intro i; rfl
  | succ n ih =>
    intro i
    rw [walk_succ, if_pos (steep_negative X Y i hXY)]
    have e : (X : Int) * i - (Y : Int) * (i + 1) + ((X : Int) + -(Y : Int))
        = (X : Int) * ((i + 1 : Nat) : Int) - (Y : Int) * (((i + 1 : Nat) : Int) + 1) := by
      push_cast; ring
    rw [e]
    have := ih (i + 1)
    rw [Nat.add_assoc xa i 1, Nat.add_assoc ya i 1, this]
    rfl

/-- The states of a steep segment (`x0 ≠ x1`, horizontal extent smaller than
the vertical one). -/
theorem segment_states_steep (x0 y0 x1 y1 : Nat)
    (hs : max x0 x1 - min x0 x1 < max y0 y1 - min y0 y1) :
    segment_states x0 y0 x1 y1
      = (List.range (max x0 x1 - min x0 x1 + 1)).map
          (fun k => (min x0 x1 + k, min y0 y1 + k,
            ((max x0 x1 - min x0 x1 : Nat) : Int) * k
              - ((max y0 y1 - min y0 y1 : Nat) : Int) * (k + 1))) := by
  have h := walk_steep (min x0 x1) (min y0 y1) (max x0 x1 - min x0 x1)
    (max y0 y1 - min y0 y1) hs (max x0 x1 - min x0 x1 + 1) 0
  have e : ((max x0 x1 - min x0 x1 : Nat) : Int) * ((0 : Nat) : Int)
      - ((max y0 y1 - min y0 y1 : Nat) : Int) * (((0 : Nat) : Int) + 1)
      = -((max y0 y1 - min y0 y1 : Nat) : Int) := by
    push_cast; ring
  rw [e] at h
  unfold segment_states
  rw [List.range_eq_range']
  exact h

/-- C24, idempotence.  For every call, calling the rasterizer a second time
with the same endpoints and colour on the buffer the first call left has the
outcome of the first call: the same final buffer, the same writes and the same
way of ending. -/
theorem idempotence (target : hdr_image C) (x0 y0 x1 y1 : Nat) (color : C) :
    rasterize_line_segment (rasterize_line_segment target x0 y0 x1 y1 color).target
        x0 y0 x1 y1 color
      = rasterize_line_segment target x0 y0 x1 y1 color :=
  rasterize_line_segment_redraw target x0 y0 x1 y1 color color

/-- The initial accumulator when the coordinates and the four products fit
`int`, for normalised endpoints `(xa, ya)` and `(xa + X, ya + Y)` with
`0 < X`. -/
theorem initial_d_of_fits (xa ya X Y : Nat) (hX : 0 < X)
    (hx1 : xa + X < 2147483648) (hy1 : ya + Y < 2147483648)
    (h1 : (xa + 1) * Y ≤ 2147483648) (h2 : X * ya < 2147483648)
    (h3 : xa * (ya + Y) < 2147483648) (h4 : (xa + X) * ya < 2147483648) :
    initial_d xa ya (xa + X) (ya + Y) (X : Int) (-(Y : Int)) = -(Y : Int) := by
  have c1 : (((xa + 1) * Y : Nat) : Int) ≤ 2147483648 := by exact_mod_cast h1
  have c2 : ((X * ya : Nat) : Int) < 2147483648 := by exact_mod_cast h2
  have c3 : ((xa * (ya + Y) : Nat) : Int) < 2147483648 := by exact_mod_cast h3
  have c4 : (((xa + X) * ya : Nat) : Int) < 2147483648 := by exact_mod_cast h4
  have n1 : (0 : Int) ≤ ((xa + 1) * Y : Nat) := Int.natCast_nonneg _
  have n2 : (0 : Int) ≤ (X * ya : Nat) := Int.natCast_nonneg _
  have n3 : (0 : Int) ≤ (xa * (ya + Y) : Nat) := Int.natCast_nonneg _
  have n4 : (0 : Int) ≤ ((xa + X) * ya : Nat) := Int.natCast_nonneg _
  have e1 : (-(Y : Int)) * ((xa : Int) + 1) = -(((xa + 1) * Y : Nat) : Int) := by
    push_cast; ring
  have e2 : (X : Int) * (ya : Int) = ((X * ya : Nat) : Int) := by push_cast; ring
  have e3 : (xa : Int) * ((ya + Y : Nat) : Int) = ((xa * (ya + Y) : Nat) : Int) := by
    push_cast; ring
  have e4 : ((xa + X : Nat) : Int) * (ya : Int) = (((xa + X) * ya : Nat) : Int) := by
    push_cast; ring
  have esum : -(((xa + 1) * Y : Nat) : Int) + ((X * ya : Nat) : Int)
      + ((xa * (ya + Y) : Nat) : Int) = (((xa + X) * ya : Nat) : Int) - (Y : Int) := by
    push_cast; ring
  have hYle : (Y : Int) ≤ (((xa + 1) * Y : Nat) : Int) := by
    have : Y ≤ (xa + 1) * Y := Nat.le_mul_of_pos_left Y (Nat.succ_pos xa)
    exact_mod_cast this
  have hcast : half_pixel_cast ya = (ya : Int) := half_pixel_cast_eq (by omega)
  have r1 : to_int ((xa : Int) + 1) = (xa : Int) + 1 := to_int_of_range (by omega) (by omega)
  clear h1 h2 h3 h4 hx1 hy1 hX
  unfold initial_d
  rw [to_int_to_unsigned, to_int_to_unsigned, to_int_to_unsigned, hcast, r1, e1, e2, e3, e4]
  clear e1 e2 e3 e4 r1 hcast
  generalize (((xa + 1) * Y : Nat) : Int) = a at *
  generalize ((X * ya : Nat) : Int) = b at *
  generalize ((xa * (ya + Y) : Nat) : Int) = c at *
  generalize (((xa + X) * ya : Nat) : Int) = e at *
  rw [to_int_of_range (z := -a) (by omega) (by omega),
    to_int_of_range (z := b) (by omega) (by omega),
    to_int_of_range (z := c) (by omega) (by omega),
    to_int_of_range (z := e) (by omega) (by omega),
    to_int_of_range (z := -a + b) (by omega) (by omega),
    to_int_of_range (z := -a + b + c) (by omega) (by omega),
    to_int_of_range (by omega) (by omega)]
  omega

/-- When `y0` is a value of `int` the half-pixel offset changes nothing: the
initial accumulator is the one computed with offset `0`. -/
theorem initial_d_eq_offset_zero (x0 y0 x1 y1 : Nat) (dx dy : Int) (h : y0 < 2147483648) :
    initial_d x0 y0 x1 y1 dx dy = initial_d_offset_zero x0 y0 x1 y1 dx dy := by
  unfold initial_d initial_d_offset_zero
  rw [half_pixel_cast_eq h, to_int_natCast h]

/-- C25, the initial accumulator is integer-exact.  After normalisation
(`x0 < x1`, `y0 ≤ y1`), when the coordinates and the four products
`dy * (x0 + 1)`, `dx * y0`, `x0 * y1` and `x1 * y0` fit the 32-bit type `int`:
the cast `(int)(y0 + 0.5)` gives `y0`; the differences are computed exactly,
`dx = x1 - x0` and `dy = y0 - y1`; the initial accumulator
`dy * (x0 + 1) + dx * (int)(y0 + 0.5) + x0 * y1 - x1 * y0` is `y0 - y1`; and it
is the value computed with offset `0` in place of the half-pixel offset. -/
theorem initial_accumulator_exact (x0 y0 x1 y1 : Nat) (hx : x0 < x1) (hy : y0 ≤ y1)
    (hcx : fits_int (x1 : Int)) (hcy : fits_int (y1 : Int))
    (h1 : fits_int (((y0 : Int) - (y1 : Int)) * ((x0 : Int) + 1)))
    (h2 : fits_int (((x1 : Int) - (x0 : Int)) * (y0 : Int)))
    (h3 : fits_int ((x0 : Int) * (y1 : Int)))
    (h4 : fits_int ((x1 : Int) * (y0 : Int))) :
    half_pixel_cast y0 = (y0 : Int) ∧
    to_int (to_unsigned ((x1 : Int) - (x0 : Int))) = (x1 : Int) - (x0 : Int) ∧
    to_int (to_unsigned ((y0 : Int) - (y1 : Int))) = (y0 : Int) - (y1 : Int) ∧
    initial_d x0 y0 x1 y1 (to_int (to_unsigned ((x1 : Int) - (x0 : Int))))
        (to_int (to_unsigned ((y0 : Int) - (y1 : Int))))
      = (y0 : Int) - (y1 : Int) ∧
    initial_d x0 y0 x1 y1 (to_int (to_unsigned ((x1 : Int) - (x0 : Int))))
        (to_int (to_unsigned ((y0 : Int) - (y1 : Int))))
      = initial_d_offset_zero x0 y0 x1 y1 (to_int (to_unsigned ((x1 : Int) - (x0 : Int))))
          (to_int (to_unsigned ((y0 : Int) - (y1 : Int)))) := by
  obtain ⟨X, rfl⟩ := Nat.exists_eq_add_of_le (Nat.le_of_lt hx)
  obtain ⟨Y, rfl⟩ := Nat.exists_eq_add_of_le hy
  unfold fits_int at hcx hcy h1 h2 h3 h4
  have hx1 : x0 + X < 2147483648 := by exact_mod_cast hcx.2
  have hy1 : y0 + Y < 2147483648 := by exact_mod_cast hcy.2
  have e1 : ((y0 : Int) - ((y0 + Y : Nat) : Int)) * ((x0 : Int) + 1)
      = -(((x0 + 1) * Y : Nat) : Int) := by push_cast; ring
  have e2 : (((x0 + X : Nat) : Int) - (x0 : Int)) * (y0 : Int) = ((X * y0 : Nat) : Int) := by
    push_cast; ring
  have e3 : (x0 : Int) * ((y0 + Y : Nat) : Int) = ((x0 * (y0 + Y) : Nat) : Int) := by
    push_cast; ring
  have e4 : ((x0 + X : Nat) : Int) * (y0 : Int) = (((x0 + X) * y0 : Nat) : Int) := by
    push_cast; ring
  rw [e1] at h1
  rw [e2] at h2
  rw [e3] at h3
  rw [e4] at h4
  have b1 : (x0 + 1) * Y ≤ 2147483648 := by
    have : (((x0 + 1) * Y : Nat) : Int) ≤ 2147483648 := by linarith [h1.1]
    exact_mod_cast this
  have b2 : X * y0 < 2147483648 := by exact_mod_cast h2.2
  have b3 : x0 * (y0 + Y) < 2147483648 := by exact_mod_cast h3.2
  have b4 : (x0 + X) * y0 < 2147483648 := by exact_mod_cast h4.2
  clear h1 h2 h3 h4 hcx hcy e1 e2 e3 e4 hy
  have hXpos : 0 < X := by omega
  have hmain := initial_d_of_fits x0 y0 X Y hXpos hx1 hy1 b1 b2 b3 b4
  clear b1 b2 b3 b4 hx
  have hdx : to_int (to_unsigned (((x0 + X : Nat) : Int) - (x0 : Int))) = (X : Int) := by
    rw [to_int_to_unsigned, to_int_of_range (by omega) (by omega)]; omega
  have hdy : to_int (to_unsigned ((y0 : Int) - ((y0 + Y : Nat) : Int))) = -(Y : Int) := by
    rw [to_int_to_unsigned, to_int_of_range (by omega) (by omega)]; omega
  have hy0 : y0 < 2147483648 := by omega
  have hcast : half_pixel_cast y0 = (y0 : Int) := half_pixel_cast_eq hy0
  refine ⟨hcast, ?_, ?_, ?_, initial_d_eq_offset_zero _ _ _ _ _ _ hy0⟩
  · rw [hdx]; push_cast; ring
  · rw [hdy]; push_cast; ring
  · rw [hdx, hdy, hmain]; push_cast; ring

/-- C25 at a concrete input: the normalised endpoints `(5,5)` and `(8,6)`. -/
theorem initial_accumulator_exact_witness :
    (5 : Nat) < 8 ∧ (5 : Nat) ≤ 6 ∧
    fits_int ((8 : Nat) : Int) ∧ fits_int ((6 : Nat) : Int) ∧
    fits_int ((((5 : Nat) : Int) - ((6 : Nat) : Int)) * (((5 : Nat) : Int) + 1)) ∧
    fits_int ((((8 : Nat) : Int) - ((5 : Nat) : Int)) * ((5 : Nat) : Int)) ∧
    fits_int (((5 : Nat) : Int) * ((6 : Nat) : Int)) ∧
    fits_int (((8 : Nat) : Int) * ((5 : Nat) : Int)) ∧
    initial_d 5 5 8 6 (to_int (to_unsigned (((8 : Nat) : Int) - ((5 : Nat) : Int))))
        (to_int (to_unsigned (((5 : Nat) : Int) - ((6 : Nat) : Int))))
      = ((5 : Nat) : Int) - ((6 : Nat) : Int) :=
  ⟨by decide, by decide, by decide, by decide, by decide, by decide, by decide, by decide,
    (initial_accumulator_exact 5 5 8 6 (by decide) (by decide) (by decide) (by decide)
      (by decide) (by decide) (by decide) (by decide)).2.2.2.1⟩

end gfx
